import Mathlib

/-! # BaiduPCS-Go: OAuth device-flow client, token lifecycle and request signing

A shallow embedding of

* `internal/sdk/sdk_auth.go`: `generateSign`, `refreshAccessToken`,
  `checkAndRefreshToken`, `getDeviceCode`, `pollAccessToken`, `runSDKLogin`;
* `internal/sdk/sdk_search.go`: `CheckAndRefreshToken`, `FormatFileSize`;
* `internal/common/utils.go`: `RetryOperation`, `FormatFileSize`;
* `internal/utils/utils.go`: `RetryOperation`;
* `internal/ui/file_selector.go`: `FormatFileSize`;
* `baidupcs/netdisksign/devuid.go`: `DevUID`;
* `baidupcs/netdisksign/share_sign.go`: `ShareSURLInfoSign`.

Conventions of the embedding.

* Go `int` (on a 64-bit platform), `int64` and `time.Duration` are `Int`. The
  arithmetic the source itself writes (`interval += 5`,
  `time.Duration(n) * time.Second`) wraps to the signed 64-bit range through
  `wrapInt64`.
* Calls into the Go standard library follow the function called:
  `time.Unix(sec, 0)` adds the offset 62135596800 to `sec` in `int64`, which
  wraps for `sec` of 9223371974719179008 or more, `time.Until` is the difference
  of the two instants clamped to the `Duration` range, `Time.Add` and
  `Time.Unix` work on the instant in nanoseconds since the Unix epoch,
  `time.Sleep` returns at once for a duration that is not positive,
  `crypto/md5` is MD5 as in RFC 1321. The reading of `time.Now()` is an input.
* The outcome of one HTTP exchange is a value of `Exchange`; the token endpoint
  is a stream `Nat → Exchange OAuthTokenResponse` giving the outcome of the
  n-th request of a polling loop.
* Effects (sleeping, posting a form, saving the configuration) are recorded as
  a chronological list of `Event`s next to the returned value.
* The console output of the source (`fmt.Print*`) is not modelled.
* The unbounded `for` loop of `pollAccessToken` is run with a fuel that counts
  loop iterations; running out of fuel is reported as `result = none`.
-/

namespace BaiduPCS

/-! ## Machine integers and the parts of package `time` the source uses -/

/-- The largest `int64`. -/
def maxInt64 : Int := 9223372036854775807

/-- The smallest `int64`. -/
def minInt64 : Int := -9223372036854775808

/-- Two's-complement wrap of an integer to the `int64` range, the result of Go's
signed 64-bit arithmetic. -/
def wrapInt64 (x : Int) : Int := (x + 9223372036854775808) % 18446744073709551616 - 9223372036854775808

namespace time

/-- The constant `time.Second`, a `Duration` counted in nanoseconds. -/
def Second : Int := 1000000000

/-- The constant `time.Minute`. -/
def Minute : Int := 60 * Second

/-- The Go expression `time.Duration(n) * time.Second` for an integer `n`:
an `int64` multiplication, which wraps. -/
def Seconds (n : Int) : Int := wrapInt64 (n * Second)

/-- The clamp of a difference of instants to the `Duration` range, as documented
for `Time.Sub`. -/
def saturate (d : Int) : Int :=
  if d > maxInt64 then maxInt64 else if d < minInt64 then minInt64 else d

/-- The constant `unixToInternal` of package `time`: the seconds from the start
of year 1, the origin of the internal clock of a `Time`, to the Unix epoch. -/
def unixToInternal : Int := 62135596800

/-- The Unix second of the instant that `time.Unix(sec, 0)` denotes. The function
stores `sec + unixToInternal` in an `int64`, which wraps: for `sec` of
9223371974719179008 or more the instant lies some 292 billion years before the
epoch, not after it. -/
def UnixSec (sec : Int) : Int := wrapInt64 (sec + unixToInternal) - unixToInternal

/-- The Go expression `time.Until(time.Unix(sec, 0))` when `time.Now()` reads
`nowNs` nanoseconds after the Unix epoch: the duration from now to the instant
`time.Unix(sec, 0)` denotes, clamped to the `Duration` range as `Time.Sub`
does. -/
def UntilUnix (nowNs sec : Int) : Int := saturate (UnixSec sec * Second - nowNs)

/-- The Go expression `time.Now().Add(d).Unix()` when `time.Now()` reads `nowNs`
nanoseconds after the Unix epoch: the whole seconds of the instant `nowNs + d`,
rounded down. -/
def NowAddUnix (nowNs d : Int) : Int := (nowNs + d) / Second

/-- The time `time.Sleep(d)` pauses, in nanoseconds: a negative or zero duration
returns at once. -/
def Slept (d : Int) : Nat := d.toNat

end time

/-! ## Data model of `sdk_auth.go` -/

/-- The constant `DefaultAppKey`. -/
def DefaultAppKey : String := "t01UV5SNjSyo3uI2HyIbwB6Agy01wrtg"

/-- The constant `DefaultSecretKey`. -/
def DefaultSecretKey : String := "Z3SI78r1mId9Mx77aC3wFb66wXwVAOTY"

/-- The struct `OAuthTokenResponse`, the decoded body of a token-endpoint reply. -/
structure OAuthTokenResponse where
  AccessToken : String
  RefreshToken : String
  ExpiresIn : Int
  Scope : String
  SessionKey : String
  SessionSecret : String
  Error : String
  ErrorDescription : String
  deriving DecidableEq

/-- The struct `DeviceCodeResponse`, the decoded body of a device-code reply. -/
structure DeviceCodeResponse where
  DeviceCode : String
  UserCode : String
  VerificationUrl : String
  QrCodeUrl : String
  ExpiresIn : Int
  Interval : Int
  Error : String
  ErrorDescription : String
  deriving DecidableEq

/-- Modelled from the spec: the credential fields of the active account that
`pcsconfig.Config.ActiveUser()` returns (package `pcsconfig` is not among the
sources); the source reads `UID` and reads and writes the other three. -/
structure Baidu where
  UID : Nat
  AccessToken : String
  RefreshToken : String
  TokenExpiresAt : Int
  deriving DecidableEq

/-- What one HTTP exchange yields: `http.PostForm` fails, reading the body fails,
`json.Unmarshal` fails, or the body decodes to `r`. The string is the text of
the Go error. -/
inductive Exchange (α : Type) where
  | transportError (msg : String)
  | readError (msg : String)
  | decodeError (msg : String)
  | decoded (r : α)
  deriving DecidableEq

/-- The effects of the source that the claims speak about. -/
inductive Event where
  /-- The call `time.Sleep(d)`, with `d` in nanoseconds. -/
  | sleep (d : Int)
  /-- The call `http.PostForm(url, data)`; the form lists the entries of `params`. -/
  | postForm (url : String) (form : List (String × String))
  /-- The call `pcsconfig.Config.Save()`: the active account as the
  configuration holds it when the call is made, and the error the call returned
  (`none` for `nil`). -/
  | save (stored : Baidu) (err : Option String)
  deriving DecidableEq

/-- A Go result pair `(value, error)`. -/
inductive Result (α : Type) where
  | ok (v : α)
  | err (msg : String)
  deriving DecidableEq

/-- The URL of the token endpoint. -/
def tokenURL : String := "https://openapi.baidu.com/oauth/2.0/token"

/-- The URL of the device-code endpoint. -/
def deviceCodeURL : String := "https://openapi.baidu.com/oauth/2.0/device/code"

/-- Whether an event is a request to the token endpoint. -/
def Event.isTokenRequest : Event → Bool
  | .postForm url _ => url == tokenURL
  | _ => false

/-- Whether an event is a call of `Save`. -/
def Event.isSave : Event → Bool
  | .save _ _ => true
  | _ => false

/-- The total time slept by the `time.Sleep` calls of a trace, in nanoseconds. -/
def totalSlept : List Event → Nat
  | [] => 0
  | .sleep d :: es => time.Slept d + totalSlept es
  | _ :: es => totalSlept es

/-! ## `refreshAccessToken` and `checkAndRefreshToken` -/

/-- The request `refreshAccessToken` posts. -/
def refreshRequest (appKey secretKey refreshToken : String) : Event :=
  .postForm tokenURL
    [("grant_type", "refresh_token"), ("refresh_token", refreshToken),
     ("client_id", appKey), ("client_secret", secretKey)]

/-- The function `refreshAccessToken`: one POST to the token endpoint, whose
outcome is `x`. -/
def refreshAccessToken (appKey secretKey refreshToken : String)
    (x : Exchange OAuthTokenResponse) : Result OAuthTokenResponse × List Event :=
  let evs := [refreshRequest appKey secretKey refreshToken]
  match x with
  | .transportError e => (.err ("请求失败: " ++ e), evs)
  | .readError e => (.err ("读取响应失败: " ++ e), evs)
  | .decodeError e => (.err ("解析响应失败: " ++ e), evs)
  | .decoded result =>
    if result.Error ≠ "" then
      (.err ("刷新令牌失败: " ++ result.Error ++ " - " ++ result.ErrorDescription), evs)
    else
      (.ok result, evs)

/-- What a call of `checkAndRefreshToken` or `runSDKLogin` leaves behind: the
returned error (`none` for `nil`), the active account afterwards, and the
effects in order. -/
structure Outcome where
  err : Option String
  user : Baidu
  events : List Event
  deriving DecidableEq

/-- The function `checkAndRefreshToken` on the active account `activeUser`.
`nowCheck` is the reading of `time.Now()` inside `time.Until`, `nowStore` the
reading of `time.Now()` when the new expiry is computed, `x` the outcome of the
refresh exchange should one be made, `saveErr` the error `Save` returns should
it be called (the source only prints it). -/
def checkAndRefreshToken (activeUser : Baidu) (nowCheck nowStore : Int)
    (x : Exchange OAuthTokenResponse) (saveErr : Option String) : Outcome :=
  if activeUser.AccessToken = "" then
    ⟨some "未设置AccessToken，请先登录", activeUser, []⟩
  else if activeUser.TokenExpiresAt > 0 then
    if time.UntilUnix nowCheck activeUser.TokenExpiresAt < 5 * time.Minute then
      if activeUser.RefreshToken = "" then
        ⟨some "RefreshToken为空，请重新登录", activeUser, []⟩
      else
        match refreshAccessToken DefaultAppKey DefaultSecretKey activeUser.RefreshToken x with
        | (.err e, evs) => ⟨some ("刷新令牌失败: " ++ e), activeUser, evs⟩
        | (.ok tokenResp, evs) =>
          let u1 := { activeUser with AccessToken := tokenResp.AccessToken }
          let u2 := if tokenResp.RefreshToken ≠ "" then
            { u1 with RefreshToken := tokenResp.RefreshToken } else u1
          let u3 := { u2 with
            TokenExpiresAt := time.NowAddUnix nowStore (time.Seconds tokenResp.ExpiresIn) }
          ⟨none, u3, evs ++ [.save u3 saveErr]⟩
    else
      ⟨none, activeUser, []⟩
  else
    ⟨none, activeUser, []⟩

/-! ## `getDeviceCode`, `pollAccessToken` and `runSDKLogin` -/

/-- The request `getDeviceCode` posts. -/
def deviceCodeRequest (appKey : String) : Event :=
  .postForm deviceCodeURL
    [("response_type", "device_code"), ("client_id", appKey), ("scope", "basic,netdisk")]

/-- The function `getDeviceCode`: one POST to the device-code endpoint, whose
outcome is `x`. -/
def getDeviceCode (appKey : String) (x : Exchange DeviceCodeResponse) :
    Result DeviceCodeResponse × List Event :=
  let evs := [deviceCodeRequest appKey]
  match x with
  | .transportError e => (.err ("请求失败: " ++ e), evs)
  | .readError e => (.err ("读取响应失败: " ++ e), evs)
  | .decodeError e => (.err ("解析响应失败: " ++ e), evs)
  | .decoded result =>
    if result.Error ≠ "" then
      (.err ("获取设备码失败: " ++ result.Error ++ " - " ++ result.ErrorDescription), evs)
    else
      (.ok result, evs)

/-- The request `pollAccessToken` posts on every iteration. -/
def pollRequest (appKey secretKey deviceCode : String) : Event :=
  .postForm tokenURL
    [("grant_type", "device_token"), ("code", deviceCode),
     ("client_id", appKey), ("client_secret", secretKey)]

/-- How one iteration of the loop of `pollAccessToken` ends: `again` for
`continue`, with the value of `interval` for the next iteration, or `done` for
`return`. -/
inductive PollStep where
  | again (interval : Int)
  | done (r : Result OAuthTokenResponse)
  deriving DecidableEq

/-- The body of the loop of `pollAccessToken` after the request was sent: what
the iteration does with the outcome `x` of the exchange when the variable
`interval` holds `interval`. -/
def pollDecide (x : Exchange OAuthTokenResponse) (interval : Int) : PollStep :=
  match x with
  | .transportError _ => .again interval
  | .readError _ => .again interval
  | .decodeError _ => .again interval
  | .decoded result =>
    if result.Error ≠ "" then
      if result.Error = "authorization_pending" then
        .again interval
      else if result.Error = "slow_down" then
        .again (wrapInt64 (interval + 5))
      else if result.Error = "expired_token" then
        .done (.err "设备码已过期，请重新获取")
      else
        .done (.err ("获取访问令牌失败: " ++ result.Error ++ " - " ++ result.ErrorDescription))
    else
      .done (.ok result)

/-- A run of `pollAccessToken`, stopped when it returned or when the fuel ran
out: the returned pair (`none` while the loop is still running), the value of
the variable `interval`, the number of requests sent and the effects in order. -/
structure PollRun where
  result : Option (Result OAuthTokenResponse)
  interval : Int
  requests : Nat
  events : List Event
  deriving DecidableEq

/-- The loop of `pollAccessToken`, from the iteration that sends request number
`n` on, with `fuel` iterations left to run. -/
def pollLoop (appKey secretKey deviceCode : String)
    (env : Nat → Exchange OAuthTokenResponse) : Nat → Nat → Int → List Event → PollRun
  | 0, n, interval, evs => ⟨none, interval, n, evs⟩
  | fuel + 1, n, interval, evs =>
    let evs1 := evs ++ [.sleep (time.Seconds interval), pollRequest appKey secretKey deviceCode]
    match pollDecide (env n) interval with
    | .again interval1 => pollLoop appKey secretKey deviceCode env fuel (n + 1) interval1 evs1
    | .done r => ⟨some r, interval, n + 1, evs1⟩

/-- The function `pollAccessToken`, run for at most `fuel` iterations against a
token endpoint whose n-th exchange has outcome `env n`. -/
def pollAccessToken (appKey secretKey deviceCode : String) (interval : Int)
    (env : Nat → Exchange OAuthTokenResponse) (fuel : Nat) : PollRun :=
  pollLoop appKey secretKey deviceCode env fuel 0 interval []

/-- The function `runSDKLogin` on the active account `activeUser`. `dx` is the
outcome of the device-code exchange, `env` the token endpoint, `nowStore` the
reading of `time.Now()` when the expiry is computed, `saveErr` the error `Save`
returns (the source only prints it); `none` when the polling loop is still
running after `fuel` iterations. -/
def runSDKLogin (appKey secretKey : String) (activeUser : Baidu)
    (dx : Exchange DeviceCodeResponse) (env : Nat → Exchange OAuthTokenResponse)
    (nowStore : Int) (saveErr : Option String) (fuel : Nat) : Option Outcome :=
  let appKey := if appKey = "" then DefaultAppKey else appKey
  let secretKey := if secretKey = "" then DefaultSecretKey else secretKey
  match getDeviceCode appKey dx with
  | (.err e, evs) => some ⟨some e, activeUser, evs⟩
  | (.ok deviceResp, evs) =>
    let run := pollAccessToken appKey secretKey deviceResp.DeviceCode deviceResp.Interval env fuel
    match run.result with
    | none => none
    | some (.err e) => some ⟨some e, activeUser, evs ++ run.events⟩
    | some (.ok tokenResp) =>
      let u1 := { activeUser with AccessToken := tokenResp.AccessToken }
      let u2 := { u1 with RefreshToken := tokenResp.RefreshToken }
      let u3 := { u2 with
        TokenExpiresAt := time.NowAddUnix nowStore (time.Seconds tokenResp.ExpiresIn) }
      some ⟨none, u3, evs ++ run.events ++ [.save u3 saveErr]⟩

/-! ## Vocabulary of the statements about the polling loop -/

/-- Whether the outcome of an exchange ends the loop of `pollAccessToken`: a
decoded response whose error code is neither `authorization_pending` nor
`slow_down` (an empty error code, a token response, included). -/
def isTerminal : Exchange OAuthTokenResponse → Bool
  | .decoded r => r.Error != "authorization_pending" && r.Error != "slow_down"
  | _ => false

/-- A token endpoint that answers `authorization_pending` to every request. -/
def pendingForever : Nat → Exchange OAuthTokenResponse :=
  fun _ => .decoded ⟨"", "", 0, "", "", "", "authorization_pending", "waiting for the user"⟩

/-- The number of requests to the token endpoint in a trace. -/
def requestCount (evs : List Event) : Nat := (evs.filter Event.isTokenRequest).length

/-- The trace of `k` iterations of the loop of `pollAccessToken` during which the
variable `interval` keeps the value `interval`: a sleep, then a request. -/
def pollTrace (appKey secretKey deviceCode : String) (interval : Int) : Nat → List Event
  | 0 => []
  | k + 1 => .sleep (time.Seconds interval) :: pollRequest appKey secretKey deviceCode ::
      pollTrace appKey secretKey deviceCode interval k

/-- A token endpoint that answers `expired_token` to every request. -/
def expiredAtOnce : Nat → Exchange OAuthTokenResponse :=
  fun _ => .decoded ⟨"", "", 0, "", "", "", "expired_token", "the device code has expired"⟩

/-- A response that answers `slow_down`. -/
def slowDown : OAuthTokenResponse := ⟨"", "", 0, "", "", "", "slow_down", "polling too fast"⟩

/-! ## Bytes, `crypto/md5`, `encoding/hex`, `bytes.ToUpper`, `strconv.FormatInt`

In the signing functions a Go string or byte slice is the list of its bytes. -/

/-- A Go `byte`. -/
abbrev Byte := Fin 256

/-- The byte of a character code, reduced modulo 256 as by the Go conversion
`byte(n)`. -/
def byteOf (n : Nat) : Byte := ⟨n % 256, Nat.mod_lt n (by decide)⟩

/-- The bytes of a string of ASCII characters. -/
def asciiBytes (s : String) : List Byte := s.data.map (fun c => byteOf c.toNat)

namespace md5

/-- Reduction to a `uint32`. -/
def mask32 (x : Nat) : Nat := x % 4294967296

/-- Bitwise complement of a `uint32`. -/
def not32 (x : Nat) : Nat := x ^^^ 4294967295

/-- Rotation to the left of a `uint32` by `s` bits, `0 < s < 32`. -/
def rotl32 (x s : Nat) : Nat := mask32 (x <<< s) ||| (x >>> (32 - s))

/-- The per-round shift amounts of MD5 (RFC 1321). -/
def shifts : List Nat :=
  [7, 12, 17, 22, 7, 12, 17, 22, 7, 12, 17, 22, 7, 12, 17, 22,
   5, 9, 14, 20, 5, 9, 14, 20, 5, 9, 14, 20, 5, 9, 14, 20,
   4, 11, 16, 23, 4, 11, 16, 23, 4, 11, 16, 23, 4, 11, 16, 23,
   6, 10, 15, 21, 6, 10, 15, 21, 6, 10, 15, 21, 6, 10, 15, 21]

/-- The sine table of MD5 (RFC 1321). -/
def table : List Nat :=
  [0xd76aa478, 0xe8c7b756, 0x242070db, 0xc1bdceee, 0xf57c0faf, 0x4787c62a, 0xa8304613, 0xfd469501,
   0x698098d8, 0x8b44f7af, 0xffff5bb1, 0x895cd7be, 0x6b901122, 0xfd987193, 0xa679438e, 0x49b40821,
   0xf61e2562, 0xc040b340, 0x265e5a51, 0xe9b6c7aa, 0xd62f105d, 0x02441453, 0xd8a1e681, 0xe7d3fbc8,
   0x21e1cde6, 0xc33707d6, 0xf4d50d87, 0x455a14ed, 0xa9e3e905, 0xfcefa3f8, 0x676f02d9, 0x8d2a4c8a,
   0xfffa3942, 0x8771f681, 0x6d9d6122, 0xfde5380c, 0xa4beea44, 0x4bdecfa9, 0xf6bb4b60, 0xbebfbc70,
   0x289b7ec6, 0xeaa127fa, 0xd4ef3085, 0x04881d05, 0xd9d4d039, 0xe6db99e5, 0x1fa27cf8, 0xc4ac5665,
   0xf4292244, 0x432aff97, 0xab9423a7, 0xfc93a039, 0x655b59c3, 0x8f0ccc92, 0xffeff47d, 0x85845dd1,
   0x6fa87e4f, 0xfe2ce6e0, 0xa3014314, 0x4e0811a1, 0xf7537e82, 0xbd3af235, 0x2ad7d2bb, 0xeb86d391]

/-- The four chaining words of MD5. -/
structure State where
  a : Nat
  b : Nat
  c : Nat
  d : Nat
  deriving DecidableEq

/-- The initial chaining value. -/
def init : State := ⟨0x67452301, 0xefcdab89, 0x98badcfe, 0x10325476⟩

/-- The little-endian `uint32` at byte offset `4 * j` of a block. -/
def wordAt (block : List Byte) (j : Nat) : Nat :=
  (block.getD (4 * j) 0).val + (block.getD (4 * j + 1) 0).val <<< 8 +
    (block.getD (4 * j + 2) 0).val <<< 16 + (block.getD (4 * j + 3) 0).val <<< 24

/-- The sixteen message words of a 64-byte block. -/
def words (block : List Byte) : List Nat := (List.range 16).map (wordAt block)

/-- Operation `i` (0 to 63) of the block transformation on message words `m`. -/
def step (m : List Nat) (s : State) (i : Nat) : State :=
  let f :=
    if i < 16 then (s.b &&& s.c) ||| (not32 s.b &&& s.d)
    else if i < 32 then (s.d &&& s.b) ||| (not32 s.d &&& s.c)
    else if i < 48 then s.b ^^^ s.c ^^^ s.d
    else s.c ^^^ (s.b ||| not32 s.d)
  let g :=
    if i < 16 then i
    else if i < 32 then (5 * i + 1) % 16
    else if i < 48 then (3 * i + 5) % 16
    else (7 * i) % 16
  let t := mask32 (s.a + f + table.getD i 0 + m.getD g 0)
  ⟨s.d, mask32 (s.b + rotl32 t (shifts.getD i 0)), s.b, s.c⟩

/-- The block transformation: 64 operations, then the feed-forward addition. -/
def block (s : State) (m : List Nat) : State :=
  let r := (List.range 64).foldl (step m) s
  ⟨mask32 (s.a + r.a), mask32 (s.b + r.b), mask32 (s.c + r.c), mask32 (s.d + r.d)⟩

/-- The little-endian bytes of the low `8 * n` bits of `x`. -/
def leBytes : Nat → Nat → List Byte
  | 0, _ => []
  | n + 1, x => byteOf x :: leBytes n (x >>> 8)

/-- The padding of MD5: a byte `0x80`, zero bytes up to 56 modulo 64, and the
bit length as a little-endian `uint64`. -/
def pad (msg : List Byte) : List Byte :=
  msg ++ [0x80] ++ List.replicate ((119 - msg.length % 64) % 64) 0 ++
    leBytes 8 (8 * msg.length)

/-- The chaining value after `n` further 64-byte blocks of `bytes`. -/
def hashBlocks : Nat → State → List Byte → State
  | 0, s, _ => s
  | n + 1, s, bytes => hashBlocks n (block s (words (bytes.take 64))) (bytes.drop 64)

/-- The MD5 digest of a message, what `m.Sum(nil)` returns after the message was
written to a hash `m := md5.New()` in one or several `Write` calls. -/
def Sum (msg : List Byte) : List Byte :=
  let s := hashBlocks ((pad msg).length / 64) init (pad msg)
  leBytes 4 s.a ++ leBytes 4 s.b ++ leBytes 4 s.c ++ leBytes 4 s.d

end md5

namespace hex

/-- The table `hextable` of `encoding/hex`, the characters `0123456789abcdef`. -/
def hextable : List Byte := [48, 49, 50, 51, 52, 53, 54, 55, 56, 57, 97, 98, 99, 100, 101, 102]

/-- The loop of `hex.Encode`: for each source byte, write two digits at `dst[j]`
and `dst[j+1]`; `none` is the panic of an index out of range. -/
def encodeLoop : List Byte → Nat → List Byte → Option (List Byte)
  | dst, _, [] => some dst
  | dst, j, v :: vs =>
    if j + 1 < dst.length then
      encodeLoop ((dst.set j (hextable.getD (v.val >>> 4) 0)).set (j + 1)
        (hextable.getD (v.val &&& 15) 0)) (j + 2) vs
    else none

/-- The function `hex.Encode(dst, src)`: the contents of `dst` afterwards. -/
def Encode (dst src : List Byte) : Option (List Byte) := encodeLoop dst 0 src

end hex

/-- The function `bytes.ToUpper` on a slice of ASCII bytes: each byte from `a` to
`z` is lowered by 32, every other byte is kept. (On a slice with a byte of 128
or more the Go function maps UTF-8 sequences instead; the source only passes
ASCII bytes, see `DevUIDBuffer_ascii`.) -/
def ToUpper (s : List Byte) : List Byte :=
  s.map (fun c => if 97 ≤ c.val ∧ c.val ≤ 122 then byteOf (c.val - 32) else c)

/-- The decimal digits of `n`, most significant first, before `acc`; `fuel`
bounds the number of digits. -/
def decimalDigits : Nat → Nat → List Byte → List Byte
  | 0, _, acc => acc
  | fuel + 1, n, acc =>
    if n / 10 = 0 then byteOf (48 + n % 10) :: acc
    else decimalDigits fuel (n / 10) (byteOf (48 + n % 10) :: acc)

/-- The function `strconv.FormatInt(i, 10)`: a minus sign for a negative number,
then the decimal digits of the magnitude. -/
def FormatInt (i : Int) : List Byte :=
  if i < 0 then 45 :: decimalDigits (i.natAbs + 1) i.natAbs []
  else decimalDigits (i.natAbs + 1) i.natAbs []

/-- Modelled from the spec: `converter.ToBytes` (package `converter` is not among
the sources) gives the bytes of a string without copying; a string is its list
of bytes here. -/
def ToBytes (s : List Byte) : List Byte := s

/-- Modelled from the spec: `converter.ToString` (package `converter` is not
among the sources) gives the string of a byte slice without copying. -/
def ToString (b : List Byte) : List Byte := b

/-- A Go index assignment `s[i] = b`; `none` is the panic of an index out of
range. -/
def setIndex (s : List Byte) (i : Nat) (b : Byte) : Option (List Byte) :=
  if i < s.length then some (s.set i b) else none

/-! ## `DevUID` and `ShareSURLInfoSign` -/

/-- The body of `DevUID` up to the call of `bytes.ToUpper`: the contents of
`resHex` at that point. `resHex0` is the slice
`cachepool.RawMallocByteSlice(34)` returns (package `cachepool` is not among
the sources; the slice is not initialised); `none` is a panic. -/
def DevUIDBuffer (resHex0 : List Byte) (feature : List Byte) : Option (List Byte) :=
  let res := md5.Sum (ToBytes feature)
  if 32 ≤ resHex0.length then
    match hex.Encode (resHex0.take 32) res with
    | none => none
    | some head =>
      match setIndex (head ++ resHex0.drop 32) 32 124 with
      | none => none
      | some resHex2 => setIndex resHex2 33 48
  else none

/-- The function `DevUID`. -/
def DevUID (resHex0 : List Byte) (feature : List Byte) : Option (List Byte) :=
  (DevUIDBuffer resHex0 feature).map (fun resHex => ToString (ToUpper resHex))

/-- The salt `"_sharesurlinfo!@#"` as bytes. -/
def shareSalt : List Byte := asciiBytes "_sharesurlinfo!@#"

/-- The function `ShareSURLInfoSign`. `resHex0` is the slice
`cachepool.RawMallocByteSlice(32)` returns; `none` is a panic. -/
def ShareSURLInfoSign (resHex0 : List Byte) (shareID : Int) : Option (List Byte) :=
  let s := FormatInt shareID
  let res := md5.Sum (ToBytes s ++ shareSalt)
  hex.Encode resHex0 res

/-! ## Vocabulary of the statements about the signing functions -/

/-- The lowercase hexadecimal digit of a value below 16. -/
def lowerHexDigit (n : Nat) : Byte := if n < 10 then byteOf (48 + n) else byteOf (87 + n)

/-- The uppercase hexadecimal digit of a value below 16. -/
def upperHexDigit (n : Nat) : Byte := if n < 10 then byteOf (48 + n) else byteOf (55 + n)

/-- The lowercase hexadecimal rendering of a byte string, two digits per byte,
high digit first. -/
def hexLower : List Byte → List Byte
  | [] => []
  | b :: bs => lowerHexDigit (b.val / 16) :: lowerHexDigit (b.val % 16) :: hexLower bs

/-- The uppercase hexadecimal rendering of a byte string. -/
def hexUpper : List Byte → List Byte
  | [] => []
  | b :: bs => upperHexDigit (b.val / 16) :: upperHexDigit (b.val % 16) :: hexUpper bs

/-- The number a string of decimal digits, with an optional leading minus sign,
denotes. -/
def parseInt : List Byte → Int
  | [] => 0
  | b :: bs =>
    if b.val = 45 then -((bs.foldl (fun a c => 10 * a + (c.val - 48)) 0 : Nat) : Int)
    else (((b :: bs).foldl (fun a c => 10 * a + (c.val - 48)) 0 : Nat) : Int)

/-- Whether a byte is one of the characters `0`-`9`, `a`-`f`. -/
def isLowerHexDigit (b : Byte) : Bool := (48 ≤ b.val && b.val ≤ 57) || (97 ≤ b.val && b.val ≤ 102)

/-- Whether a byte is one of the characters `0`-`9`, `A`-`F`. -/
def isUpperHexDigit (b : Byte) : Bool := (48 ≤ b.val && b.val ≤ 57) || (65 ≤ b.val && b.val ≤ 70)

/-! ## The exported wrapper of `sdk_search.go` and further vocabulary -/

/-- The function `CheckAndRefreshToken` of `sdk_search.go`: its body is a comment
saying that the token refresh logic should be implemented here and
`return nil`; it reads no state and has no effect. -/
def CheckAndRefreshToken : Option String := none

/-- Whether a refresh exchange fails: the transport, the reading or the decoding
fails, or the decoded response carries a non-empty error field. -/
def refreshFails : Exchange OAuthTokenResponse → Bool
  | .decoded r => r.Error != ""
  | _ => true

/-- The value of the variable `interval` of `pollAccessToken` when the loop is
about to send request number `n`, having started with `interval` and not
returned before. -/
def intervalAt (env : Nat → Exchange OAuthTokenResponse) (interval : Int) : Nat → Int
  | 0 => interval
  | n + 1 =>
    match pollDecide (env n) (intervalAt env interval n) with
    | .again interval1 => interval1
    | .done _ => intervalAt env interval n

/-- The trace of the first `n` iterations of the loop of `pollAccessToken`: in
each iteration a sleep of the current interval, then a request. -/
def pollTraceUpTo (appKey secretKey deviceCode : String)
    (env : Nat → Exchange OAuthTokenResponse) (interval : Int) : Nat → List Event
  | 0 => []
  | n + 1 => pollTraceUpTo appKey secretKey deviceCode env interval n ++
      [.sleep (time.Seconds (intervalAt env interval n)),
       pollRequest appKey secretKey deviceCode]

/-! ## Vocabulary of the statements about non-terminal poll outcomes -/

/-- Whether the outcome of an exchange is one of the four non-terminal outcomes
that leave the interval alone: a transport failure, a body-read failure, an
undecodable body, or a decoded response with the error code
`authorization_pending`. -/
def keepsInterval : Exchange OAuthTokenResponse → Bool
  | .decoded r => r.Error == "authorization_pending"
  | _ => true

/-! ## `FormatFileSize` (packages `common`, `ui` and `sdk`)

The argument of the float formatting `%.1f` is not rendered: for a size of 1024
or more the result keeps the operands `size` and `div` and the unit character. -/

/-- What `FormatFileSize` hands to `fmt.Sprintf`: the finished text of the
branch `"%d B"`, or the operands of `"%.1f %cB"`, that is the quotient
`float64(size)/float64(div)` by its two operands and the unit character. -/
inductive SizeText where
  | plain (text : List Byte)
  | scaled (size div : Nat) (unit : Byte)
  deriving DecidableEq

/-- Reduction to a `uint64`. -/
def wrapUint64 (x : Nat) : Nat := x % 18446744073709551616

namespace common

/-- The loop `for n := size / unit; n >= unit; n /= unit` of
`common.FormatFileSize`, from the state `n`, `div`, `exp`; the fuel bounds the
iterations, and a fuel of `n` is never used up since `n` shrinks in every
iteration. -/
def sizeLoop : Nat → Nat → Nat → Nat → Nat × Nat
  | 0, _, div, exp => (div, exp)
  | fuel + 1, n, div, exp =>
    if n ≥ 1024 then sizeLoop fuel (n / 1024) (wrapUint64 (div * 1024)) (exp + 1)
    else (div, exp)

/-- The function `FormatFileSize` of `internal/common/utils.go`; `none` is the
panic of an index out of range in `"KMGTPE"[exp]`. -/
def FormatFileSize (size : Nat) : Option SizeText :=
  if size < 1024 then
    some (.plain (decimalDigits (size + 1) size [] ++ asciiBytes " B"))
  else
    match sizeLoop (size / 1024) (size / 1024) 1024 0 with
    | (div, exp) => ((asciiBytes "KMGTPE").get? exp).map (fun unit => .scaled size div unit)

end common

namespace ui

/-- The loop of `ui.FormatFileSize`. -/
def sizeLoop : Nat → Nat → Nat → Nat → Nat × Nat
  | 0, _, div, exp => (div, exp)
  | fuel + 1, n, div, exp =>
    if n ≥ 1024 then sizeLoop fuel (n / 1024) (wrapUint64 (div * 1024)) (exp + 1)
    else (div, exp)

/-- The function `FormatFileSize` of `internal/ui/file_selector.go`. -/
def FormatFileSize (size : Nat) : Option SizeText :=
  if size < 1024 then
    some (.plain (decimalDigits (size + 1) size [] ++ asciiBytes " B"))
  else
    match sizeLoop (size / 1024) (size / 1024) 1024 0 with
    | (div, exp) => ((asciiBytes "KMGTPE").get? exp).map (fun unit => .scaled size div unit)

end ui

namespace sdk

/-- The loop of `sdk.FormatFileSize`. -/
def sizeLoop : Nat → Nat → Nat → Nat → Nat × Nat
  | 0, _, div, exp => (div, exp)
  | fuel + 1, n, div, exp =>
    if n ≥ 1024 then sizeLoop fuel (n / 1024) (wrapUint64 (div * 1024)) (exp + 1)
    else (div, exp)

/-- The function `FormatFileSize` of `internal/sdk/sdk_search.go`. -/
def FormatFileSize (size : Nat) : Option SizeText :=
  if size < 1024 then
    some (.plain (decimalDigits (size + 1) size [] ++ asciiBytes " B"))
  else
    match sizeLoop (size / 1024) (size / 1024) 1024 0 with
    | (div, exp) => ((asciiBytes "KMGTPE").get? exp).map (fun unit => .scaled size div unit)

end sdk

/-! ## `RetryOperation` (packages `common` and `utils`)

The argument `operation` is a closure; it is modelled by the outcomes of its
successive invocations, `operation n` being the error the invocation number `n`
(from 0) returns, `none` for `nil`. -/

/-- The effects of `RetryOperation`: an invocation of `operation`, or the call
`time.Sleep(delay)`. -/
inductive RetryEvent where
  | call
  | sleep (d : Int)
  deriving DecidableEq

/-- A run of `RetryOperation`, stopped when it returned or when the fuel ran
out: the returned error (`none` while the loop is still running, `some none`
for `nil`), the number of invocations of `operation` and the effects in
order. -/
structure RetryRun where
  result : Option (Option String)
  calls : Nat
  events : List RetryEvent
  deriving DecidableEq

/-- The text the verb `%v` prints for an error value. -/
def errText : Option String → String
  | none => "<nil>"
  | some e => e

namespace common

/-- The loop `for i := 0; i <= maxRetries; i++` of `common.RetryOperation`, from
the state `i`, `err`, with `calls` invocations made so far; the fuel counts the
evaluations of the loop condition. -/
def retryLoop (operation : Nat → Option String) (maxRetries delay : Int) :
    Nat → Int → Nat → Option String → List RetryEvent → RetryRun
  | 0, _, calls, _, evs => ⟨none, calls, evs⟩
  | fuel + 1, i, calls, err, evs =>
    if i ≤ maxRetries then
      match operation calls with
      | none => ⟨some none, calls + 1, evs ++ [.call]⟩
      | some e =>
        if i < maxRetries then
          retryLoop operation maxRetries delay fuel (wrapInt64 (i + 1)) (calls + 1) (some e)
            (evs ++ [.call, .sleep delay])
        else
          retryLoop operation maxRetries delay fuel (wrapInt64 (i + 1)) (calls + 1) (some e)
            (evs ++ [.call])
    else
      ⟨some (some ("重试 " ++ toString maxRetries ++ " 次后仍然失败: " ++ errText err)),
        calls, evs⟩

/-- The function `RetryOperation` of `internal/common/utils.go`. -/
def RetryOperation (operation : Nat → Option String) (maxRetries delay : Int)
    (fuel : Nat) : RetryRun :=
  retryLoop operation maxRetries delay fuel 0 0 none []

end common

namespace utils

/-- The loop of `utils.RetryOperation`. -/
def retryLoop (operation : Nat → Option String) (maxRetries delay : Int) :
    Nat → Int → Nat → Option String → List RetryEvent → RetryRun
  | 0, _, calls, _, evs => ⟨none, calls, evs⟩
  | fuel + 1, i, calls, err, evs =>
    if i ≤ maxRetries then
      match operation calls with
      | none => ⟨some none, calls + 1, evs ++ [.call]⟩
      | some e =>
        if i < maxRetries then
          retryLoop operation maxRetries delay fuel (wrapInt64 (i + 1)) (calls + 1) (some e)
            (evs ++ [.call, .sleep delay])
        else
          retryLoop operation maxRetries delay fuel (wrapInt64 (i + 1)) (calls + 1) (some e)
            (evs ++ [.call])
    else
      ⟨some (some ("重试 " ++ toString maxRetries ++ " 次后仍然失败: " ++ errText err)),
        calls, evs⟩

/-- The function `RetryOperation` of `internal/utils/utils.go`. -/
def RetryOperation (operation : Nat → Option String) (maxRetries delay : Int)
    (fuel : Nat) : RetryRun :=
  retryLoop operation maxRetries delay fuel 0 0 none []

end utils

/-- The trace of a run of `RetryOperation` with `k` failed invocations, each
followed by one sleep of `delay`, and a last invocation after which nothing is
slept. -/
def retryTrace (delay : Int) : Nat → List RetryEvent
  | 0 => [.call]
  | k + 1 => .call :: .sleep delay :: retryTrace delay k

/-! ## `generateSign`

A Go `map[string]string` is the list of its entries in the order in which
`range` visits them; the keys of a map are distinct. The strings are byte
strings, compared byte by byte as Go compares strings. -/

namespace hex

/-- The function `hex.EncodeToString`: `Encode` into a fresh slice of twice the
length of the source. -/
def EncodeToString (src : List Byte) : Option (List Byte) :=
  Encode (List.replicate (2 * src.length) 0) src

end hex

/-- The map index expression `params[k]`: the value stored under `k`, the empty
string when there is none. -/
def mapIndex : List (List Byte × List Byte) → List Byte → List Byte
  | [], _ => []
  | (k1, v) :: rest, k => if k1 = k then v else mapIndex rest k

/-- The function `sort.Strings`: the strings in increasing order. -/
def sortStrings (keys : List (List Byte)) : List (List Byte) :=
  keys.insertionSort (fun a b => a ≤ b)

/-- The second loop of `generateSign`: for each key in turn, write the key, `=`
and `params[k]` to the builder, whose content so far is `signStr`. -/
def signLoop (params : List (List Byte × List Byte)) : List (List Byte) → List Byte → List Byte
  | [], signStr => signStr
  | k :: ks, signStr =>
    signLoop params ks (signStr ++ k ++ asciiBytes "=" ++ mapIndex params k)

/-- The function `generateSign`; `params` lists the entries of the map in
iteration order. `none` is a panic, which `hex.EncodeToString` never raises. -/
def generateSign (params : List (List Byte × List Byte)) (secretKey : List Byte) :
    Option (List Byte) :=
  let keys := params.map Prod.fst
  let sorted := sortStrings keys
  let signStr := signLoop params sorted [] ++ secretKey
  hex.EncodeToString (md5.Sum signStr)

/-- The entries of a map with their keys in ascending byte order. -/
def canonicalPairs (params : List (List Byte × List Byte)) : List (List Byte × List Byte) :=
  params.insertionSort (fun p q => p.1 ≤ q.1)

/-- The concatenation of key, `=`, value over a list of entries, with no
separator between the entries. -/
def concatPairs : List (List Byte × List Byte) → List Byte
  | [] => []
  | (k, v) :: rest => k ++ asciiBytes "=" ++ v ++ concatPairs rest

/-! ## Helper lemmas on durations -/

theorem saturate_ge (d c : Int) (hc : c ≤ maxInt64) (h : c ≤ d) : c ≤ time.saturate d := by
  unfold time.saturate
  split_ifs <;> omega

theorem saturate_lt (d c : Int) (hc : minInt64 < c) (h : d < c) : time.saturate d < c := by
  unfold time.saturate
  split_ifs <;> omega

theorem UnixSec_le (sec : Int) (h : 0 < sec) : time.UnixSec sec ≤ sec := by
  unfold time.UnixSec wrapInt64 time.unixToInternal
  omega

theorem UnixSec_eq (sec : Int) (h0 : 0 < sec) (h1 : sec ≤ 9223371974719179007) :
    time.UnixSec sec = sec := by
  unfold time.UnixSec wrapInt64 time.unixToInternal
  omega

theorem UntilUnix_lt (nowNs sec : Int) (hpos : 0 < sec)
    (hnear : sec * time.Second - nowNs < 5 * time.Minute) :
    time.UntilUnix nowNs sec < 5 * time.Minute := by
  have hle := UnixSec_le sec hpos
  unfold time.UntilUnix
  apply saturate_lt _ _ (by decide)
  have h5 : 5 * time.Minute = 300000000000 := by decide
  rw [h5] at hnear ⊢
  unfold time.Second at hnear ⊢
  omega

theorem UntilUnix_ge (nowNs sec : Int) (h0 : 0 < sec) (h1 : sec ≤ 9223371974719179007)
    (hfresh : 5 * time.Minute ≤ sec * time.Second - nowNs) :
    5 * time.Minute ≤ time.UntilUnix nowNs sec := by
  unfold time.UntilUnix
  rw [UnixSec_eq sec h0 h1]
  exact saturate_ge _ _ (by decide) hfresh

theorem Seconds_eq (n : Int) (h0 : -9223372036 ≤ n) (h1 : n ≤ 9223372036) :
    time.Seconds n = n * 1000000000 := by
  unfold time.Seconds wrapInt64 time.Second
  omega

theorem NowAddUnix_Seconds (nowNs n : Int) (h0 : -9223372036 ≤ n) (h1 : n ≤ 9223372036) :
    time.NowAddUnix nowNs (time.Seconds n) = nowNs / time.Second + n := by
  rw [Seconds_eq n h0 h1]
  unfold time.NowAddUnix time.Second
  omega

/-! ## `checkAndRefreshToken` -/

/-- Counterexample to C1: with `TokenExpiresAt` equal to the largest `int64`, which
lies far more than 5 minutes after now, `time.Unix` wraps to an instant long
before the epoch, `time.Until` is the smallest `Duration`, and
`checkAndRefreshToken` refreshes and overwrites the credential instead of
leaving it alone. -/
theorem checkAndRefreshToken_fresh_wraps_refreshes :
    ("tok" : String) ≠ "" ∧
    5 * time.Minute ≤ (9223372036854775807 : Int) * time.Second - 1700000000000000000 ∧
    time.UntilUnix 1700000000000000000 9223372036854775807 = -9223372036854775808 ∧
    checkAndRefreshToken ⟨7, "tok", "ref", 9223372036854775807⟩ 1700000000000000000
        1700000001000000000 (.decoded ⟨"new", "newref", 3600, "", "", "", "", ""⟩) none
      = ⟨none, ⟨7, "new", "newref", 1700003601⟩,
          [refreshRequest DefaultAppKey DefaultSecretKey "ref",
           .save ⟨7, "new", "newref", 1700003601⟩ none]⟩ := by
  decide

/-- Claim C1 (as amended): on an active account with a non-empty `AccessToken`
whose stored expiry lies at least 5 minutes after now
(`TokenExpiresAt - now >= 5 minutes`) and is at most 9223371974719179007 (so
that `time.Unix` does not wrap), `checkAndRefreshToken` returns success
(`nil`), produces no effect at all, so no request to the token endpoint and no
call of `Save`, and leaves the account, with its `AccessToken`, `RefreshToken`
and `TokenExpiresAt`, unchanged. -/
theorem checkAndRefreshToken_fresh_noop (u : Baidu) (nowCheck nowStore : Int)
    (x : Exchange OAuthTokenResponse) (saveErr : Option String)
    (hA : u.AccessToken ≠ "")
    (hfresh : 5 * time.Minute ≤ u.TokenExpiresAt * time.Second - nowCheck)
    (hwrap : u.TokenExpiresAt ≤ 9223371974719179007) :
    checkAndRefreshToken u nowCheck nowStore x saveErr = ⟨none, u, []⟩ := by
  unfold checkAndRefreshToken
  rw [if_neg hA]
  by_cases h1 : u.TokenExpiresAt > 0
  · have h := UntilUnix_ge nowCheck u.TokenExpiresAt h1 hwrap hfresh
    rw [if_pos h1, if_neg (by omega)]
  · rw [if_neg h1]

/-- Witness of C1 (as amended): a token that expires ten minutes from now. -/
theorem checkAndRefreshToken_fresh_noop_witness :
    checkAndRefreshToken ⟨7, "tok", "ref", 1700000600⟩ 1700000000000000000 1700000000000000000
      (.transportError "unreachable") none = ⟨none, ⟨7, "tok", "ref", 1700000600⟩, []⟩ :=
  checkAndRefreshToken_fresh_noop ⟨7, "tok", "ref", 1700000600⟩ 1700000000000000000
    1700000000000000000 (.transportError "unreachable") none (by decide) (by decide)
    (by decide)

/-- Counterexample to C2: with `TokenExpiresAt = 0`, which lies more than 5
minutes before now, the guard `TokenExpiresAt > 0` skips the refresh:
`checkAndRefreshToken` sends no request and returns the credential unchanged;
so it does with `TokenExpiresAt = -5`. -/
theorem checkAndRefreshToken_unset_expiry_no_refresh :
    ((0 : Int) * time.Second - 1700000000000000000 < 5 * time.Minute ∧
      checkAndRefreshToken ⟨7, "tok", "ref", 0⟩ 1700000000000000000 1700000000000000000
        (.decoded ⟨"new", "newref", 3600, "", "", "", "", ""⟩) none
        = ⟨none, ⟨7, "tok", "ref", 0⟩, []⟩) ∧
    ((-5 : Int) * time.Second - 1700000000000000000 < 5 * time.Minute ∧
      checkAndRefreshToken ⟨7, "tok", "ref", -5⟩ 1700000000000000000 1700000000000000000
        (.decoded ⟨"new", "newref", 3600, "", "", "", "", ""⟩) none
        = ⟨none, ⟨7, "tok", "ref", -5⟩, []⟩) := by
  decide

/-- Claim C2 (as amended): on an active account with a non-empty `AccessToken`
and a non-empty `RefreshToken`, for every stored `TokenExpiresAt` that is
positive and lies less than 5 minutes after now, `checkAndRefreshToken`
performs a refresh exchange: its first effect is the request of
`refreshAccessToken` with the stored refresh token, and it sends no other
request to the token endpoint. For every `TokenExpiresAt` that is zero or
negative the expiry counts as not set: whatever the clock and the server, no
refresh is attempted, nothing is saved and the credential is returned
unchanged with success. -/
theorem checkAndRefreshToken_near_expiry_refreshes (u : Baidu) (nowCheck nowStore : Int)
    (x : Exchange OAuthTokenResponse) (saveErr : Option String)
    (hA : u.AccessToken ≠ "") (hR : u.RefreshToken ≠ "") :
    (0 < u.TokenExpiresAt →
      u.TokenExpiresAt * time.Second - nowCheck < 5 * time.Minute →
      ∃ rest, (checkAndRefreshToken u nowCheck nowStore x saveErr).events =
          refreshRequest DefaultAppKey DefaultSecretKey u.RefreshToken :: rest ∧
        (∀ e ∈ rest, e.isTokenRequest = false)) ∧
    (u.TokenExpiresAt ≤ 0 →
      checkAndRefreshToken u nowCheck nowStore x saveErr = ⟨none, u, []⟩) := by
  constructor
  · intro hpos hnear
    unfold checkAndRefreshToken
    rw [if_neg hA, if_pos hpos, if_pos (UntilUnix_lt _ _ hpos hnear), if_neg hR]
    cases x with
    | transportError e => exact ⟨[], by simp [refreshAccessToken]⟩
    | readError e => exact ⟨[], by simp [refreshAccessToken]⟩
    | decodeError e => exact ⟨[], by simp [refreshAccessToken]⟩
    | decoded r =>
      by_cases hE : r.Error = ""
      · simp only [refreshAccessToken, hE, ne_eq, not_true_eq_false, if_false]
        exact ⟨_, rfl, by simp [Event.isTokenRequest]⟩
      · exact ⟨[], by simp [refreshAccessToken, hE]⟩
  · intro hle
    unfold checkAndRefreshToken
    rw [if_neg hA, if_neg (by omega)]

/-- Witness of C2 (as amended): a token that expires 100 seconds from now. -/
theorem checkAndRefreshToken_near_expiry_refreshes_witness :
    ((0 : Int) < 1700000100 →
      (1700000100 : Int) * time.Second - 1700000000000000000 < 5 * time.Minute →
      ∃ rest, (checkAndRefreshToken ⟨7, "tok", "ref", 1700000100⟩ 1700000000000000000
          1700000001000000000
          (.decoded ⟨"new", "newref", 3600, "", "", "", "", ""⟩) none).events =
          refreshRequest DefaultAppKey DefaultSecretKey "ref" :: rest ∧
        (∀ e ∈ rest, e.isTokenRequest = false)) ∧
    ((1700000100 : Int) ≤ 0 →
      checkAndRefreshToken ⟨7, "tok", "ref", 1700000100⟩ 1700000000000000000
          1700000001000000000 (.decoded ⟨"new", "newref", 3600, "", "", "", "", ""⟩) none
        = ⟨none, ⟨7, "tok", "ref", 1700000100⟩, []⟩) :=
  checkAndRefreshToken_near_expiry_refreshes ⟨7, "tok", "ref", 1700000100⟩ 1700000000000000000
    1700000001000000000 (.decoded ⟨"new", "newref", 3600, "", "", "", "", ""⟩) none
    (by decide) (by decide)

/-- Claim C3 (as amended): on a successful refresh response `r` whose `expires_in`
lies between -9223372036 and 9223372036 (so that its count of nanoseconds fits
an `int64`), `checkAndRefreshToken` returns success, sets `AccessToken` to
`r.access_token` and `TokenExpiresAt` to the Unix second of now + `r.expires_in`
seconds, and sets `RefreshToken` to `r.refresh_token` if that is non-empty;
when it is empty the previous `RefreshToken` is kept. -/
theorem checkAndRefreshToken_refresh_success (u : Baidu) (nowCheck nowStore : Int)
    (r : OAuthTokenResponse) (saveErr : Option String)
    (hA : u.AccessToken ≠ "") (hR : u.RefreshToken ≠ "")
    (hpos : 0 < u.TokenExpiresAt)
    (hnear : u.TokenExpiresAt * time.Second - nowCheck < 5 * time.Minute)
    (hE : r.Error = "")
    (h0 : -9223372036 ≤ r.ExpiresIn) (h1 : r.ExpiresIn ≤ 9223372036) :
    (checkAndRefreshToken u nowCheck nowStore (.decoded r) saveErr).err = none ∧
    (checkAndRefreshToken u nowCheck nowStore (.decoded r) saveErr).user.AccessToken
      = r.AccessToken ∧
    (checkAndRefreshToken u nowCheck nowStore (.decoded r) saveErr).user.TokenExpiresAt
      = (nowStore + r.ExpiresIn * time.Second) / time.Second ∧
    (r.RefreshToken ≠ "" →
      (checkAndRefreshToken u nowCheck nowStore (.decoded r) saveErr).user.RefreshToken
        = r.RefreshToken) ∧
    (r.RefreshToken = "" →
      (checkAndRefreshToken u nowCheck nowStore (.decoded r) saveErr).user.RefreshToken
        = u.RefreshToken) := by
  have hs := Seconds_eq r.ExpiresIn h0 h1
  unfold checkAndRefreshToken
  rw [if_neg hA, if_pos hpos, if_pos (UntilUnix_lt _ _ hpos hnear), if_neg hR]
  simp only [refreshAccessToken, hE, ne_eq, not_true_eq_false, if_false]
  refine ⟨?_, ?_, ?_, ?_, ?_⟩
  · trivial
  · split_ifs <;> rfl
  · simp only [hs, time.Second, time.NowAddUnix]
  · intro hne
    rw [if_pos hne]
  · intro he
    rw [if_neg (by simp [he])]

/-- Witness of C3 (as amended): a refresh that answers a new access token, no
refresh token and `expires_in = 3600`. -/
theorem checkAndRefreshToken_refresh_success_witness :
    (checkAndRefreshToken ⟨7, "tok", "ref", 1700000100⟩ 1700000000000000000
      1700000001500000000 (.decoded ⟨"new", "", 3600, "", "", "", "", ""⟩) none).err = none ∧
    (checkAndRefreshToken ⟨7, "tok", "ref", 1700000100⟩ 1700000000000000000
      1700000001500000000 (.decoded ⟨"new", "", 3600, "", "", "", "", ""⟩) none).user.AccessToken
      = "new" ∧
    (checkAndRefreshToken ⟨7, "tok", "ref", 1700000100⟩ 1700000000000000000
      1700000001500000000
      (.decoded ⟨"new", "", 3600, "", "", "", "", ""⟩) none).user.TokenExpiresAt
      = (1700000001500000000 + 3600 * time.Second) / time.Second ∧
    ("" ≠ "" →
      (checkAndRefreshToken ⟨7, "tok", "ref", 1700000100⟩ 1700000000000000000
        1700000001500000000
        (.decoded ⟨"new", "", 3600, "", "", "", "", ""⟩) none).user.RefreshToken = "") ∧
    ("" = "" →
      (checkAndRefreshToken ⟨7, "tok", "ref", 1700000100⟩ 1700000000000000000
        1700000001500000000
        (.decoded ⟨"new", "", 3600, "", "", "", "", ""⟩) none).user.RefreshToken = "ref") :=
  checkAndRefreshToken_refresh_success ⟨7, "tok", "ref", 1700000100⟩ 1700000000000000000
    1700000001500000000 ⟨"new", "", 3600, "", "", "", "", ""⟩ none
    (by decide) (by decide) (by decide) (by decide) (by decide) (by decide) (by decide)

/-- Counterexample to C3: for a successful refresh response with
`expires_in = 9223372037` the duration `expires_in * time.Second` overflows, and
the stored `TokenExpiresAt` is -7523372037 instead of the Unix second
10923372037 of now + `expires_in` seconds. -/
theorem checkAndRefreshToken_expiry_overflow :
    (checkAndRefreshToken ⟨7, "tok", "ref", 1700000100⟩ 1700000000000000000 1700000000000000000
      (.decoded ⟨"new", "", 9223372037, "", "", "", "", ""⟩) none).user.TokenExpiresAt
      = -7523372037 ∧
    ((1700000000000000000 : Int) + 9223372037 * time.Second) / time.Second = 10923372037 := by
  decide

/-! ## Helper lemmas on the polling loop -/

theorem isTerminal_false_continue (x : Exchange OAuthTokenResponse) (i : Int)
    (h : isTerminal x = false) :
    pollDecide x i = .again i ∨ pollDecide x i = .again (wrapInt64 (i + 5)) := by
  cases x with
  | transportError e => left; rfl
  | readError e => left; rfl
  | decodeError e => left; rfl
  | decoded r =>
    simp only [isTerminal, Bool.and_eq_false_imp, bne_iff_ne, ne_eq, bne_eq_false_iff_eq] at h
    by_cases hp : r.Error = "authorization_pending"
    · left; simp [pollDecide, hp]
    · have hs := h hp
      right; simp [pollDecide, hs]

theorem isTerminal_true_done (x : Exchange OAuthTokenResponse) (h : isTerminal x = true) :
    ∃ res, ∀ i, pollDecide x i = .done res := by
  cases x with
  | transportError e => simp [isTerminal] at h
  | readError e => simp [isTerminal] at h
  | decodeError e => simp [isTerminal] at h
  | decoded r =>
    simp only [isTerminal, Bool.and_eq_true, bne_iff_ne, ne_eq] at h
    obtain ⟨hp, hs⟩ := h
    by_cases hE : r.Error = ""
    · exact ⟨.ok r, fun i => by simp [pollDecide, hE]⟩
    · by_cases hx : r.Error = "expired_token"
      · exact ⟨.err "设备码已过期，请重新获取", fun i => by simp [pollDecide, hx]⟩
      · exact ⟨.err ("获取访问令牌失败: " ++ r.Error ++ " - " ++ r.ErrorDescription),
          fun i => by simp [pollDecide, hE, hp, hs, hx]⟩

theorem pollLoop_done_at (appKey secretKey deviceCode : String)
    (env : Nat → Exchange OAuthTokenResponse) (res : Result OAuthTokenResponse) :
    ∀ (k fuel n : Nat) (i : Int) (evs : List Event),
      (∀ j, j < k → isTerminal (env (n + j)) = false) →
      (∀ i, pollDecide (env (n + k)) i = .done res) → k < fuel →
      (pollLoop appKey secretKey deviceCode env fuel n i evs).result = some res ∧
      (pollLoop appKey secretKey deviceCode env fuel n i evs).requests = n + k + 1 := by
  intro k
  induction k with
  | zero =>
    intro fuel n i evs _ hd hf
    obtain ⟨f, rfl⟩ : ∃ f, fuel = f + 1 := ⟨fuel - 1, by omega⟩
    have := hd i
    simp only [Nat.add_zero] at this
    simp [pollLoop, this]
  | succ k ih =>
    intro fuel n i evs hc hd hf
    obtain ⟨f, rfl⟩ : ∃ f, fuel = f + 1 := ⟨fuel - 1, by omega⟩
    have h0 := hc 0 (by omega)
    simp only [Nat.add_zero] at h0
    have hc1 : ∀ j, j < k → isTerminal (env (n + 1 + j)) = false := fun j hj => by
      have := hc (j + 1) (by omega)
      rwa [show n + (j + 1) = n + 1 + j by omega] at this
    have hd1 : ∀ i, pollDecide (env (n + 1 + k)) i = .done res := fun i => by
      have := hd i
      rwa [show n + (k + 1) = n + 1 + k by omega] at this
    rcases isTerminal_false_continue (env n) i h0 with h | h
    · simp only [pollLoop, h]
      have := ih f (n + 1) i
        (evs ++ [.sleep (time.Seconds i), pollRequest appKey secretKey deviceCode])
        hc1 hd1 (by omega)
      refine ⟨this.1, ?_⟩
      rw [this.2]; omega
    · simp only [pollLoop, h]
      have := ih f (n + 1) (wrapInt64 (i + 5))
        (evs ++ [.sleep (time.Seconds i), pollRequest appKey secretKey deviceCode])
        hc1 hd1 (by omega)
      refine ⟨this.1, ?_⟩
      rw [this.2]; omega

theorem pollLoop_still_polling (appKey secretKey deviceCode : String)
    (env : Nat → Exchange OAuthTokenResponse) :
    ∀ (fuel n : Nat) (i : Int) (evs : List Event),
      (∀ j, j < fuel → isTerminal (env (n + j)) = false) →
      (pollLoop appKey secretKey deviceCode env fuel n i evs).result = none ∧
      (pollLoop appKey secretKey deviceCode env fuel n i evs).requests = n + fuel := by
  intro fuel
  induction fuel with
  | zero => intro n i evs _; simp [pollLoop]
  | succ f ih =>
    intro n i evs hc
    have h0 := hc 0 (by omega)
    simp only [Nat.add_zero] at h0
    have hc1 : ∀ j, j < f → isTerminal (env (n + 1 + j)) = false := fun j hj => by
      have := hc (j + 1) (by omega)
      rwa [show n + (j + 1) = n + 1 + j by omega] at this
    rcases isTerminal_false_continue (env n) i h0 with h | h
    · simp only [pollLoop, h]
      have := ih (n + 1) i
        (evs ++ [.sleep (time.Seconds i), pollRequest appKey secretKey deviceCode]) hc1
      refine ⟨this.1, ?_⟩
      rw [this.2]; omega
    · simp only [pollLoop, h]
      have := ih (n + 1) (wrapInt64 (i + 5))
        (evs ++ [.sleep (time.Seconds i), pollRequest appKey secretKey deviceCode]) hc1
      refine ⟨this.1, ?_⟩
      rw [this.2]; omega

theorem requestCount_append (a b : List Event) :
    requestCount (a ++ b) = requestCount a + requestCount b := by
  simp [requestCount]

theorem pollLoop_requestCount (appKey secretKey deviceCode : String)
    (env : Nat → Exchange OAuthTokenResponse) :
    ∀ (fuel n : Nat) (i : Int) (evs : List Event), requestCount evs = n →
      requestCount (pollLoop appKey secretKey deviceCode env fuel n i evs).events =
        (pollLoop appKey secretKey deviceCode env fuel n i evs).requests := by
  intro fuel
  induction fuel with
  | zero => intro n i evs h; simpa [pollLoop] using h
  | succ f ih =>
    intro n i evs h
    have h1 : requestCount
        (evs ++ [.sleep (time.Seconds i), pollRequest appKey secretKey deviceCode]) = n + 1 := by
      rw [requestCount_append, h]
      simp [requestCount, Event.isTokenRequest, pollRequest]
    cases hd : pollDecide (env n) i with
    | again i1 =>
      simp only [pollLoop, hd]
      exact ih (n + 1) i1 _ h1
    | done r =>
      simp only [pollLoop, hd]
      exact h1

theorem pollAccessToken_requestCount (appKey secretKey deviceCode : String) (interval : Int)
    (env : Nat → Exchange OAuthTokenResponse) (fuel : Nat) :
    requestCount (pollAccessToken appKey secretKey deviceCode interval env fuel).events =
      (pollAccessToken appKey secretKey deviceCode interval env fuel).requests :=
  pollLoop_requestCount appKey secretKey deviceCode env fuel 0 interval [] rfl

/-! ## The polling loop -/

theorem pollDecide_again_cases (x : Exchange OAuthTokenResponse) (i i1 : Int)
    (h : pollDecide x i = .again i1) : i1 = i ∨ i1 = wrapInt64 (i + 5) := by
  cases x with
  | transportError e => left; simpa [pollDecide] using h.symm
  | readError e => left; simpa [pollDecide] using h.symm
  | decodeError e => left; simpa [pollDecide] using h.symm
  | decoded r =>
    unfold pollDecide at h
    simp only at h
    split_ifs at h
    · left; exact (PollStep.again.inj h).symm
    · right; exact (PollStep.again.inj h).symm

theorem totalSlept_pollTrace (appKey secretKey deviceCode : String) (i : Int) (k : Nat) :
    totalSlept (pollTrace appKey secretKey deviceCode i k) = k * time.Slept (time.Seconds i) := by
  induction k with
  | zero => simp [pollTrace, totalSlept]
  | succ k ih =>
    simp only [pollTrace, totalSlept, pollRequest, ih]
    ring

theorem pollLoop_constant_interval (appKey secretKey deviceCode : String)
    (env : Nat → Exchange OAuthTokenResponse) (res : Result OAuthTokenResponse) (i : Int) :
    ∀ (k fuel n : Nat) (evs : List Event),
      (∀ j, j < k → pollDecide (env (n + j)) i = .again i) →
      pollDecide (env (n + k)) i = .done res → k < fuel →
      pollLoop appKey secretKey deviceCode env fuel n i evs =
        ⟨some res, i, n + k + 1, evs ++ pollTrace appKey secretKey deviceCode i (k + 1)⟩ := by
  intro k
  induction k with
  | zero =>
    intro fuel n evs _ hd hf
    obtain ⟨f, rfl⟩ : ∃ f, fuel = f + 1 := ⟨fuel - 1, by omega⟩
    simp only [Nat.add_zero] at hd
    simp [pollLoop, hd, pollTrace]
  | succ k ih =>
    intro fuel n evs hc hd hf
    obtain ⟨f, rfl⟩ : ∃ f, fuel = f + 1 := ⟨fuel - 1, by omega⟩
    have h0 := hc 0 (by omega)
    simp only [Nat.add_zero] at h0
    have hc1 : ∀ j, j < k → pollDecide (env (n + 1 + j)) i = .again i := fun j hj => by
      have := hc (j + 1) (by omega)
      rwa [show n + (j + 1) = n + 1 + j by omega] at this
    have hd1 : pollDecide (env (n + 1 + k)) i = .done res := by
      rwa [show n + (k + 1) = n + 1 + k by omega] at hd
    simp only [pollLoop, h0]
    rw [ih f (n + 1)
      (evs ++ [.sleep (time.Seconds i), pollRequest appKey secretKey deviceCode])
      hc1 hd1 (by omega)]
    simp [pollTrace, show n + 1 + k + 1 = n + (k + 1) + 1 by omega]

theorem Slept_Seconds (i : Int) (h0 : 0 ≤ i) (h1 : i ≤ 9223372036) :
    time.Slept (time.Seconds i) = i.toNat * 1000000000 := by
  rw [Seconds_eq i (by omega) h1]
  unfold time.Slept
  omega

/-- Claim C4 (as amended): at the first response whose error code is neither empty nor
`authorization_pending` nor `slow_down`, `pollAccessToken` returns an error and
has sent exactly the requests up to that one; the error is the fixed text of the
`expired_token` branch when the code is `expired_token`, and otherwise the text
that carries the server's code and description verbatim. -/
theorem pollAccessToken_terminal_error (appKey secretKey deviceCode : String) (interval : Int)
    (env : Nat → Exchange OAuthTokenResponse) (k fuel : Nat) (r : OAuthTokenResponse)
    (hprev : ∀ j, j < k → isTerminal (env j) = false)
    (hk : env k = .decoded r) (hE : r.Error ≠ "")
    (hp : r.Error ≠ "authorization_pending") (hs : r.Error ≠ "slow_down")
    (hf : k < fuel) :
    (pollAccessToken appKey secretKey deviceCode interval env fuel).result =
      some (.err (if r.Error = "expired_token" then "设备码已过期，请重新获取"
        else "获取访问令牌失败: " ++ r.Error ++ " - " ++ r.ErrorDescription)) ∧
    requestCount (pollAccessToken appKey secretKey deviceCode interval env fuel).events
      = k + 1 := by
  have hd : ∀ i, pollDecide (env (0 + k)) i = .done
      (.err (if r.Error = "expired_token" then "设备码已过期，请重新获取"
        else "获取访问令牌失败: " ++ r.Error ++ " - " ++ r.ErrorDescription)) := by
    intro i
    rw [Nat.zero_add, hk]
    by_cases hx : r.Error = "expired_token"
    · simp [pollDecide, hx]
    · simp [pollDecide, hE, hp, hs, hx]
  have h := pollLoop_done_at appKey secretKey deviceCode env _ k fuel 0 interval []
    (fun j hj => by rw [Nat.zero_add]; exact hprev j hj) hd hf
  rw [pollAccessToken_requestCount]
  unfold pollAccessToken
  refine ⟨h.1, ?_⟩
  rw [h.2]; omega

/-- Witness of C4 (as amended): `access_denied` on the second poll, after one
`authorization_pending`. -/
theorem pollAccessToken_terminal_error_witness :
    (pollAccessToken "app" "secret" "dc" 5
      (fun n => if n = 0 then pendingForever 0
        else .decoded ⟨"", "", 0, "", "", "", "access_denied", "user said no"⟩) 9).result =
      some (.err (if "access_denied" = "expired_token" then "设备码已过期，请重新获取"
        else "获取访问令牌失败: " ++ "access_denied" ++ " - " ++ "user said no")) ∧
    requestCount (pollAccessToken "app" "secret" "dc" 5
      (fun n => if n = 0 then pendingForever 0
        else .decoded ⟨"", "", 0, "", "", "", "access_denied", "user said no"⟩) 9).events
      = 1 + 1 :=
  pollAccessToken_terminal_error "app" "secret" "dc" 5
    (fun n => if n = 0 then pendingForever 0
      else .decoded ⟨"", "", 0, "", "", "", "access_denied", "user said no"⟩) 1 9
    ⟨"", "", 0, "", "", "", "access_denied", "user said no"⟩
    (by decide) (by decide) (by decide) (by decide) (by decide) (by decide)

/-- Counterexample to C4: when the first poll answers `expired_token`, one request
is sent and the call fails, but the returned error is a fixed text that contains
neither the server's error code nor its description. -/
theorem pollAccessToken_expired_token_not_verbatim :
    (pollAccessToken "app" "secret" "dc" 5 expiredAtOnce 3).result
      = some (.err "设备码已过期，请重新获取") ∧
    requestCount (pollAccessToken "app" "secret" "dc" 5 expiredAtOnce 3).events = 1 ∧
    ¬ ("expired_token".data <:+: "设备码已过期，请重新获取".data) ∧
    ¬ ("the device code has expired".data <:+: "设备码已过期，请重新获取".data) := by
  decide

/-- Claim C6 (as amended): `pollAccessToken` has no deadline of its own. For every
interval and every sequence of responses, if some response ends the loop (a
decoded response whose error code is neither `authorization_pending` nor
`slow_down`), the call returns after finitely many polls, at the first such
response, with a credential or an error; if no response ends the loop, the call
never returns. -/
theorem pollAccessToken_returns_iff_terminal (appKey secretKey deviceCode : String)
    (interval : Int) (env : Nat → Exchange OAuthTokenResponse) :
    (∀ k, isTerminal (env k) = true →
      ∃ m, m ≤ k ∧ ∀ fuel, m < fuel →
        (pollAccessToken appKey secretKey deviceCode interval env fuel).result.isSome = true ∧
        requestCount (pollAccessToken appKey secretKey deviceCode interval env fuel).events
          = m + 1) ∧
    ((∀ k, isTerminal (env k) = false) →
      ∀ fuel, (pollAccessToken appKey secretKey deviceCode interval env fuel).result = none) := by
  constructor
  · intro k hk
    have hex : ∃ k, isTerminal (env k) = true := ⟨k, hk⟩
    refine ⟨Nat.find hex, Nat.find_min' hex hk, ?_⟩
    intro fuel hf
    obtain ⟨res, hres⟩ := isTerminal_true_done _ (Nat.find_spec hex)
    have h := pollLoop_done_at appKey secretKey deviceCode env res (Nat.find hex) fuel 0
      interval []
      (fun j hj => by
        rw [Nat.zero_add]
        have := Nat.find_min hex hj
        simpa using this)
      (fun i => by rw [Nat.zero_add]; exact hres i) hf
    rw [pollAccessToken_requestCount]
    unfold pollAccessToken
    rw [h.1, h.2]
    exact ⟨rfl, by omega⟩
  · intro hall fuel
    exact (pollLoop_still_polling appKey secretKey deviceCode env fuel 0 interval []
      (fun j _ => hall _)).1

/-- Counterexample to C6: against a token endpoint that answers
`authorization_pending` forever, `pollAccessToken` with interval 5 never
returns, whatever the number of iterations, and neither does `runSDKLogin` on a
device authorization with `interval = 5` and `expires_in = 30`; after seven
polls the loop has slept 35 seconds, past the 30 seconds of `expires_in`, and
is still polling. -/
theorem pollAccessToken_pending_forever_unbounded :
    (¬ ∃ fuel, (pollAccessToken "app" "secret" "dc" 5 pendingForever fuel).result ≠ none) ∧
    (¬ ∃ fuel, runSDKLogin "app" "secret" ⟨7, "", "", 0⟩
        (.decoded ⟨"dc", "uc", "https://v", "https://q", 30, 5, "", ""⟩)
        pendingForever 1700000000000000000 none fuel ≠ none) ∧
    (pollAccessToken "app" "secret" "dc" 5 pendingForever 7).result = none ∧
    requestCount (pollAccessToken "app" "secret" "dc" 5 pendingForever 7).events = 7 ∧
    totalSlept (pollAccessToken "app" "secret" "dc" 5 pendingForever 7).events
      = 35 * 1000000000 := by
  have hnone : ∀ fuel, (pollAccessToken "app" "secret" "dc" 5 pendingForever fuel).result
      = none := fun fuel =>
    (pollLoop_still_polling "app" "secret" "dc" pendingForever fuel 0 5 [] (fun j _ => rfl)).1
  refine ⟨?_, ?_, by decide, by decide, by decide⟩
  · rintro ⟨fuel, h⟩
    exact h (hnone fuel)
  · rintro ⟨fuel, h⟩
    apply h
    have h1 : getDeviceCode "app" (.decoded ⟨"dc", "uc", "https://v", "https://q", 30, 5, "", ""⟩)
        = (.ok ⟨"dc", "uc", "https://v", "https://q", 30, 5, "", ""⟩,
            [deviceCodeRequest "app"]) := by decide
    have h2 : (if ("app" : String) = "" then DefaultAppKey else "app") = "app" := by decide
    have h3 : (if ("secret" : String) = "" then DefaultSecretKey else "secret") = "secret" := by
      decide
    simp only [runSDKLogin, h2, h3, h1, hnone]

/-- Claim C7 (as amended): the login flow ends AUTHORIZED on every response whose error
field is empty (the code decides on the error field, not on `access_token`):
if the responses before poll `k` do not end the loop and response `k` has an
empty error field, `pollAccessToken` returns that response, and `runSDKLogin`
stores its `access_token` and `refresh_token` with `TokenExpiresAt` equal to the
Unix second of now + `expires_in` seconds, for every `expires_in` whose count of
nanoseconds fits an `int64` (between -9223372036 and 9223372036). -/
theorem runSDKLogin_authorized (appKey secretKey : String) (activeUser : Baidu)
    (d : DeviceCodeResponse) (env : Nat → Exchange OAuthTokenResponse)
    (nowStore : Int) (saveErr : Option String) (k fuel : Nat) (r : OAuthTokenResponse)
    (hd : d.Error = "")
    (hprev : ∀ j, j < k → isTerminal (env j) = false)
    (hk : env k = .decoded r) (hE : r.Error = "") (hf : k < fuel)
    (h0 : -9223372036 ≤ r.ExpiresIn) (h1 : r.ExpiresIn ≤ 9223372036) :
    (pollAccessToken appKey secretKey d.DeviceCode d.Interval env fuel).result
      = some (.ok r) ∧
    ∃ out, runSDKLogin appKey secretKey activeUser (.decoded d) env nowStore saveErr fuel
        = some out ∧
      out.err = none ∧
      out.user.AccessToken = r.AccessToken ∧
      out.user.RefreshToken = r.RefreshToken ∧
      out.user.TokenExpiresAt = (nowStore + r.ExpiresIn * time.Second) / time.Second := by
  have hdone : ∀ i, pollDecide (env (0 + k)) i = .done (.ok r) := by
    intro i
    rw [Nat.zero_add, hk]
    simp [pollDecide, hE]
  have hpoll : ∀ a s, (pollAccessToken a s d.DeviceCode d.Interval env fuel).result
      = some (.ok r) := fun a s =>
    (pollLoop_done_at a s d.DeviceCode env _ k fuel 0 d.Interval []
      (fun j hj => by rw [Nat.zero_add]; exact hprev j hj) hdone hf).1
  refine ⟨hpoll _ _, ?_⟩
  have hs := Seconds_eq r.ExpiresIn h0 h1
  simp only [runSDKLogin, getDeviceCode, hd, ne_eq, not_true_eq_false, if_false, hpoll]
  exact ⟨_, rfl, rfl, rfl, rfl, by simp only [hs, time.NowAddUnix, time.Second]⟩

/-- Witness of C7 (as amended): a token on the second poll, after one
`authorization_pending`. -/
theorem runSDKLogin_authorized_witness :
    (pollAccessToken "" "" "dc" 5
      (fun n => if n = 0 then pendingForever 0
        else .decoded ⟨"tok", "ref", 3600, "basic", "", "", "", ""⟩) 9).result
      = some (.ok ⟨"tok", "ref", 3600, "basic", "", "", "", ""⟩) ∧
    ∃ out, runSDKLogin "" "" ⟨7, "", "", 0⟩
        (.decoded ⟨"dc", "uc", "https://v", "https://q", 1800, 5, "", ""⟩)
        (fun n => if n = 0 then pendingForever 0
          else .decoded ⟨"tok", "ref", 3600, "basic", "", "", "", ""⟩)
        1700000000500000000 none 9 = some out ∧
      out.err = none ∧
      out.user.AccessToken = "tok" ∧
      out.user.RefreshToken = "ref" ∧
      out.user.TokenExpiresAt = (1700000000500000000 + 3600 * time.Second) / time.Second :=
  runSDKLogin_authorized "" "" ⟨7, "", "", 0⟩
    ⟨"dc", "uc", "https://v", "https://q", 1800, 5, "", ""⟩
    (fun n => if n = 0 then pendingForever 0
      else .decoded ⟨"tok", "ref", 3600, "basic", "", "", "", ""⟩)
    1700000000500000000 none 1 9 ⟨"tok", "ref", 3600, "basic", "", "", "", ""⟩
    (by decide) (by decide) (by decide) (by decide) (by decide) (by decide) (by decide)

/-- Counterexample to C7: a response that carries a non-empty `access_token`
together with the error code `access_denied` is not returned as the credential,
`pollAccessToken` fails and `runSDKLogin` stores nothing; and for a token
response with `expires_in = 9223372037` the stored `TokenExpiresAt` is
-7523372037, not the Unix second 10923372037 of now + `expires_in` seconds. -/
theorem runSDKLogin_access_token_with_error :
    ((pollAccessToken DefaultAppKey DefaultSecretKey "dc" 5
        (fun _ => .decoded ⟨"tok", "ref", 3600, "basic", "", "", "access_denied", "no"⟩) 3).result
        = some (.err "获取访问令牌失败: access_denied - no") ∧
      runSDKLogin "" "" ⟨7, "", "", 0⟩
        (.decoded ⟨"dc", "uc", "https://v", "https://q", 1800, 5, "", ""⟩)
        (fun _ => .decoded ⟨"tok", "ref", 3600, "basic", "", "", "access_denied", "no"⟩)
        1700000000000000000 none 3
        = some ⟨some "获取访问令牌失败: access_denied - no", ⟨7, "", "", 0⟩,
            [deviceCodeRequest DefaultAppKey,
             .sleep 5000000000, pollRequest DefaultAppKey DefaultSecretKey "dc"]⟩) ∧
    ((runSDKLogin "" "" ⟨7, "", "", 0⟩
        (.decoded ⟨"dc", "uc", "https://v", "https://q", 1800, 5, "", ""⟩)
        (fun _ => .decoded ⟨"tok", "ref", 9223372037, "basic", "", "", "", ""⟩)
        1700000000000000000 none 3).map (fun out => out.user.TokenExpiresAt)
        = some (-7523372037) ∧
      ((1700000000000000000 : Int) + 9223372037 * time.Second) / time.Second
        = 10923372037) := by
  decide

/-- Claim C8 (as amended): for every interval `I` with `0 ≤ I ≤ 9223372036` (so that
`I` seconds fit a `Duration`) and every `k`, if the token endpoint answers
`authorization_pending` to the first `k` polls and a token response (empty
error; a non-empty `access_token` is not needed) to poll `k + 1`,
`pollAccessToken` returns
exactly that response after exactly `k + 1` requests, having slept `I` seconds
before each request, `(k + 1) * I` seconds in total. -/
theorem pollAccessToken_pending_then_token (appKey secretKey deviceCode : String)
    (I : Int) (env : Nat → Exchange OAuthTokenResponse) (k fuel : Nat)
    (r : OAuthTokenResponse)
    (h0 : 0 ≤ I) (hmax : I ≤ 9223372036)
    (hpending : ∀ j, j < k → ∃ p, env j = .decoded p ∧ p.Error = "authorization_pending")
    (hk : env k = .decoded r) (hE : r.Error = "") (hf : k < fuel) :
    pollAccessToken appKey secretKey deviceCode I env fuel =
      ⟨some (.ok r), I, k + 1, pollTrace appKey secretKey deviceCode I (k + 1)⟩ ∧
    time.Seconds I = I * time.Second ∧
    requestCount (pollAccessToken appKey secretKey deviceCode I env fuel).events = k + 1 ∧
    totalSlept (pollAccessToken appKey secretKey deviceCode I env fuel).events
      = (k + 1) * (I.toNat * 1000000000) := by
  have hrun : pollAccessToken appKey secretKey deviceCode I env fuel =
      ⟨some (.ok r), I, k + 1, pollTrace appKey secretKey deviceCode I (k + 1)⟩ := by
    have := pollLoop_constant_interval appKey secretKey deviceCode env (.ok r) I k fuel 0 []
      (fun j hj => by
        obtain ⟨p, hp, hpe⟩ := hpending j hj
        rw [Nat.zero_add, hp]
        simp [pollDecide, hpe])
      (by rw [Nat.zero_add, hk]; simp [pollDecide, hE]) hf
    simpa [pollAccessToken] using this
  refine ⟨hrun, ?_, ?_, ?_⟩
  · rw [Seconds_eq I (by omega) hmax]; rfl
  · rw [pollAccessToken_requestCount, hrun]
  · rw [hrun]
    simp only []
    rw [totalSlept_pollTrace, Slept_Seconds I h0 hmax]

/-- Witness of C8 (as amended): interval 5, three `authorization_pending` answers,
then a token: four requests and 20 seconds of sleep. -/
theorem pollAccessToken_pending_then_token_witness :
    pollAccessToken "app" "secret" "dc" 5
        (fun n => if n < 3 then pendingForever n
          else .decoded ⟨"tok", "ref", 3600, "basic", "", "", "", ""⟩) 10 =
      ⟨some (.ok ⟨"tok", "ref", 3600, "basic", "", "", "", ""⟩), 5, 3 + 1,
        pollTrace "app" "secret" "dc" 5 (3 + 1)⟩ ∧
    time.Seconds 5 = 5 * time.Second ∧
    requestCount (pollAccessToken "app" "secret" "dc" 5
        (fun n => if n < 3 then pendingForever n
          else .decoded ⟨"tok", "ref", 3600, "basic", "", "", "", ""⟩) 10).events = 3 + 1 ∧
    totalSlept (pollAccessToken "app" "secret" "dc" 5
        (fun n => if n < 3 then pendingForever n
          else .decoded ⟨"tok", "ref", 3600, "basic", "", "", "", ""⟩) 10).events
      = (3 + 1) * ((5 : Int).toNat * 1000000000) :=
  pollAccessToken_pending_then_token "app" "secret" "dc" 5
    (fun n => if n < 3 then pendingForever n
      else .decoded ⟨"tok", "ref", 3600, "basic", "", "", "", ""⟩) 3 10
    ⟨"tok", "ref", 3600, "basic", "", "", "", ""⟩
    (by decide) (by decide)
    (fun j hj => ⟨⟨"", "", 0, "", "", "", "authorization_pending", "waiting for the user"⟩,
      by simp [hj, pendingForever], rfl⟩)
    (by decide) (by decide) (by decide)

/-- Counterexample to C8: with interval 9223372037 the duration of the sleep
overflows to a negative number of nanoseconds, so the token of the first poll is
returned after no sleep at all instead of after 9223372037 seconds. -/
theorem pollAccessToken_interval_overflow :
    pollAccessToken "app" "secret" "dc" 9223372037
        (fun _ => .decoded ⟨"tok", "ref", 3600, "basic", "", "", "", ""⟩) 3 =
      ⟨some (.ok ⟨"tok", "ref", 3600, "basic", "", "", "", ""⟩), 9223372037, 1,
        [.sleep (-9223372036709551616), pollRequest "app" "secret" "dc"]⟩ ∧
    totalSlept (pollAccessToken "app" "secret" "dc" 9223372037
        (fun _ => .decoded ⟨"tok", "ref", 3600, "basic", "", "", "", ""⟩) 3).events = 0 := by
  decide

/-! ## The signing functions -/

theorem leBytes_length (n x : Nat) : (md5.leBytes n x).length = n := by
  induction n generalizing x with
  | zero => rfl
  | succ n ih => simp [md5.leBytes, ih]

theorem md5_Sum_length (msg : List Byte) : (md5.Sum msg).length = 16 := by
  simp [md5.Sum, leBytes_length]

set_option maxRecDepth 100000 in
theorem hextable_high (v : Byte) :
    hex.hextable.getD (v.val >>> 4) 0 = lowerHexDigit (v.val / 16) := by
  revert v; decide

set_option maxRecDepth 100000 in
theorem hextable_low (v : Byte) :
    hex.hextable.getD (v.val &&& 15) 0 = lowerHexDigit (v.val % 16) := by
  revert v; decide

theorem set_at_length (pre : List Byte) (x a : Byte) (rest : List Byte) :
    (pre ++ x :: rest).set pre.length a = pre ++ a :: rest := by
  induction pre with
  | nil => rfl
  | cons p ps ih => simp [ih]

theorem encodeLoop_append (src : List Byte) :
    ∀ (pre mid post : List Byte), mid.length = 2 * src.length →
      hex.encodeLoop (pre ++ mid ++ post) pre.length src = some (pre ++ hexLower src ++ post) := by
  induction src with
  | nil =>
    intro pre mid post h
    have : mid = [] := List.length_eq_zero.mp (by simpa using h)
    simp [hex.encodeLoop, hexLower, this]
  | cons v vs ih =>
    intro pre mid post h
    match mid, h with
    | x :: y :: mid1, h =>
      have hlen : mid1.length = 2 * vs.length := by
        simp only [List.length_cons] at h; omega
      have hcond : pre.length + 1 < (pre ++ x :: y :: mid1 ++ post).length := by
        simp only [List.length_append, List.length_cons]; omega
      have e1 : (pre ++ x :: y :: mid1 ++ post).set pre.length
          (hex.hextable.getD (v.val >>> 4) 0)
          = (pre ++ [lowerHexDigit (v.val / 16)]) ++ y :: (mid1 ++ post) := by
        rw [hextable_high]
        simp
      have e2 : ((pre ++ [lowerHexDigit (v.val / 16)]) ++ y :: (mid1 ++ post)).set
          (pre.length + 1) (hex.hextable.getD (v.val &&& 15) 0)
          = (pre ++ [lowerHexDigit (v.val / 16), lowerHexDigit (v.val % 16)]) ++ mid1 ++ post := by
        rw [hextable_low]
        simp
      unfold hex.encodeLoop
      rw [if_pos hcond, e1, e2]
      have := ih (pre ++ [lowerHexDigit (v.val / 16), lowerHexDigit (v.val % 16)]) mid1 post hlen
      simp only [List.length_append, List.length_cons, List.length_nil] at this
      rw [this]
      simp [hexLower]

theorem Encode_exact (dst src : List Byte) (h : dst.length = 2 * src.length) :
    hex.Encode dst src = some (hexLower src) := by
  have := encodeLoop_append src [] dst [] h
  simpa [hex.Encode] using this

theorem hexLower_length (l : List Byte) : (hexLower l).length = 2 * l.length := by
  induction l with
  | nil => rfl
  | cons b bs ih => simp [hexLower, ih]; omega

theorem hexUpper_length (l : List Byte) : (hexUpper l).length = 2 * l.length := by
  induction l with
  | nil => rfl
  | cons b bs ih => simp [hexUpper, ih]; omega

set_option maxRecDepth 100000 in
theorem lowerHexDigit_isLower (b : Byte) :
    isLowerHexDigit (lowerHexDigit (b.val / 16)) = true ∧
    isLowerHexDigit (lowerHexDigit (b.val % 16)) = true := by
  revert b; decide

set_option maxRecDepth 100000 in
theorem upperHexDigit_isUpper (b : Byte) :
    isUpperHexDigit (upperHexDigit (b.val / 16)) = true ∧
    isUpperHexDigit (upperHexDigit (b.val % 16)) = true := by
  revert b; decide

set_option maxRecDepth 100000 in
theorem ToUpper_digits (b : Byte) :
    ToUpper [lowerHexDigit (b.val / 16), lowerHexDigit (b.val % 16)] =
      [upperHexDigit (b.val / 16), upperHexDigit (b.val % 16)] := by
  revert b; decide

theorem hexLower_all (l : List Byte) : ∀ b ∈ hexLower l, isLowerHexDigit b = true := by
  induction l with
  | nil => simp [hexLower]
  | cons c cs ih =>
    intro b hb
    simp only [hexLower, List.mem_cons] at hb
    rcases hb with h | h | h
    · rw [h]; exact (lowerHexDigit_isLower c).1
    · rw [h]; exact (lowerHexDigit_isLower c).2
    · exact ih b h

theorem hexUpper_all (l : List Byte) : ∀ b ∈ hexUpper l, isUpperHexDigit b = true := by
  induction l with
  | nil => simp [hexUpper]
  | cons c cs ih =>
    intro b hb
    simp only [hexUpper, List.mem_cons] at hb
    rcases hb with h | h | h
    · rw [h]; exact (upperHexDigit_isUpper c).1
    · rw [h]; exact (upperHexDigit_isUpper c).2
    · exact ih b h

theorem ToUpper_append (a b : List Byte) : ToUpper (a ++ b) = ToUpper a ++ ToUpper b := by
  simp [ToUpper]

theorem ToUpper_hexLower (l : List Byte) : ToUpper (hexLower l) = hexUpper l := by
  induction l with
  | nil => rfl
  | cons c cs ih =>
    have h := ToUpper_digits c
    have : hexLower (c :: cs)
        = [lowerHexDigit (c.val / 16), lowerHexDigit (c.val % 16)] ++ hexLower cs := rfl
    rw [this, ToUpper_append, h, ih]
    rfl

theorem DevUIDBuffer_eq (resHex0 feature : List Byte) (h : resHex0.length = 34) :
    DevUIDBuffer resHex0 feature = some (hexLower (md5.Sum feature) ++ asciiBytes "|0") := by
  have h32 : (resHex0.take 32).length = 2 * (md5.Sum feature).length := by
    rw [md5_Sum_length, List.length_take]; omega
  have hdrop : ∃ x y, resHex0.drop 32 = [x, y] := by
    have hl : (resHex0.drop 32).length = 2 := by rw [List.length_drop]; omega
    match hd : resHex0.drop 32, hl with
    | [x, y], _ => exact ⟨x, y, rfl⟩
  obtain ⟨x, y, hxy⟩ := hdrop
  have hL : (hexLower (md5.Sum feature)).length = 32 := by
    rw [hexLower_length, md5_Sum_length]
  have s1 : (hexLower (md5.Sum feature) ++ [x, y]).set 32 124
      = hexLower (md5.Sum feature) ++ [124, y] := by
    have := set_at_length (hexLower (md5.Sum feature)) x 124 [y]
    rwa [hL] at this
  have s2 : (hexLower (md5.Sum feature) ++ [124, y]).set 33 48
      = hexLower (md5.Sum feature) ++ [124, 48] := by
    simp [hL]
  unfold DevUIDBuffer
  simp only [ToBytes]
  rw [if_pos (by omega), Encode_exact _ _ h32, hxy]
  simp only [setIndex, List.length_append, hL, List.length_cons, List.length_nil]
  rw [if_pos (by omega), s1]
  simp only [List.length_append, hL, List.length_cons, List.length_nil]
  rw [if_pos (by omega), s2]
  rfl

theorem DevUIDBuffer_ascii (resHex0 feature : List Byte) (h : resHex0.length = 34) :
    ∃ buf, DevUIDBuffer resHex0 feature = some buf ∧ ∀ b ∈ buf, b.val < 128 := by
  refine ⟨_, DevUIDBuffer_eq resHex0 feature h, ?_⟩
  intro b hb
  rcases List.mem_append.mp hb with hb | hb
  · have := hexLower_all _ b hb
    simp only [isLowerHexDigit, Bool.or_eq_true, Bool.and_eq_true, decide_eq_true_eq] at this
    omega
  · have : b = 124 ∨ b = 48 := by simpa [asciiBytes, byteOf] using hb
    rcases this with h | h <;> rw [h] <;> decide

theorem decimalDigits_value (fuel : Nat) :
    ∀ (n : Nat) (acc : List Byte), n < fuel →
      (decimalDigits fuel n acc).foldl (fun a c => 10 * a + (c.val - 48)) 0
        = acc.foldl (fun a c => 10 * a + (c.val - 48)) n := by
  induction fuel with
  | zero => intro n acc h; omega
  | succ f ih =>
    intro n acc h
    have hd : (byteOf (48 + n % 10)).val - 48 = n % 10 := by
      simp only [byteOf]
      omega
    unfold decimalDigits
    split_ifs with h0
    · simp only [List.foldl_cons, hd]
      congr 1
      omega
    · rw [ih (n / 10) _ (by omega)]
      simp only [List.foldl_cons, hd]
      congr 1
      omega

theorem decimalDigits_head (fuel : Nat) :
    ∀ (n : Nat) (acc : List Byte), n < fuel →
      ∃ d rest, decimalDigits fuel n acc = d :: rest ∧ 48 ≤ d.val ∧ d.val ≤ 57 := by
  induction fuel with
  | zero => intro n acc h; omega
  | succ f ih =>
    intro n acc h
    unfold decimalDigits
    split_ifs with h0
    · refine ⟨_, _, rfl, ?_, ?_⟩ <;> simp only [byteOf] <;> omega
    · exact ih (n / 10) _ (by omega)

theorem parseInt_FormatInt (i : Int) : parseInt (FormatInt i) = i := by
  unfold FormatInt
  split_ifs with h
  · simp only [parseInt]
    rw [if_pos (by decide), decimalDigits_value _ _ _ (Nat.lt_succ_self _)]
    simp only [List.foldl_nil]
    omega
  · obtain ⟨d, rest, hd, h1, h2⟩ := decimalDigits_head _ i.natAbs [] (Nat.lt_succ_self _)
    have hv := decimalDigits_value _ i.natAbs [] (Nat.lt_succ_self _)
    rw [hd] at hv ⊢
    simp only [parseInt]
    rw [if_neg (by omega), hv]
    simp only [List.foldl_nil]
    omega

/-- Claim C9: for every string `feature`, when `RawMallocByteSlice(34)` returns a slice
of length 34 (whatever its content), `DevUID(feature)` does not panic and is the
34-character string made of the 32 uppercase hexadecimal digits (characters
`0`-`9`, `A`-`F` only) of the 16-byte MD5 digest of the bytes of `feature`,
followed by the suffix `|0`, which the uppercasing leaves intact; the result
depends on `feature` only, not on the content of the allocated slice. -/
theorem DevUID_spec (resHex0 feature : List Byte) (h : resHex0.length = 34) :
    DevUID resHex0 feature = some (hexUpper (md5.Sum feature) ++ asciiBytes "|0") ∧
    (hexUpper (md5.Sum feature) ++ asciiBytes "|0").length = 34 ∧
    (md5.Sum feature).length = 16 ∧
    (hexUpper (md5.Sum feature)).length = 32 ∧
    (∀ b ∈ hexUpper (md5.Sum feature), isUpperHexDigit b = true) ∧
    (∀ other : List Byte, other.length = 34 →
      DevUID other feature = DevUID resHex0 feature) := by
  have key : ∀ raw : List Byte, raw.length = 34 →
      DevUID raw feature = some (hexUpper (md5.Sum feature) ++ asciiBytes "|0") := by
    intro raw hraw
    unfold DevUID
    rw [DevUIDBuffer_eq raw feature hraw]
    simp only [Option.map_some', ToString, ToUpper_append, ToUpper_hexLower]
    rfl
  have hlen : (hexUpper (md5.Sum feature)).length = 32 := by
    rw [hexUpper_length, md5_Sum_length]
  refine ⟨key resHex0 h, ?_, md5_Sum_length feature, hlen, hexUpper_all _, ?_⟩
  · rw [List.length_append, hlen]; rfl
  · intro other ho
    rw [key other ho, key resHex0 h]

set_option maxRecDepth 100000 in
/-- Witness of C9: the feature `abc` and an allocated slice of 34 bytes `7`. -/
theorem DevUID_spec_witness :
    DevUID (List.replicate 34 7) (asciiBytes "abc")
      = some (hexUpper (md5.Sum (asciiBytes "abc")) ++ asciiBytes "|0") ∧
    (hexUpper (md5.Sum (asciiBytes "abc")) ++ asciiBytes "|0").length = 34 ∧
    (md5.Sum (asciiBytes "abc")).length = 16 ∧
    (hexUpper (md5.Sum (asciiBytes "abc"))).length = 32 ∧
    (∀ b ∈ hexUpper (md5.Sum (asciiBytes "abc")), isUpperHexDigit b = true) ∧
    (∀ other : List Byte, other.length = 34 →
      DevUID other (asciiBytes "abc") = DevUID (List.replicate 34 7) (asciiBytes "abc")) :=
  DevUID_spec (List.replicate 34 7) (asciiBytes "abc") (by decide)

set_option maxRecDepth 100000 in
theorem DevUID_fixture :
    DevUID (List.replicate 34 0) (asciiBytes "abc")
      = some (asciiBytes "900150983CD24FB0D6963F7D28E17F72|0") := by
  decide

/-- Claim C10: for every `int64` `shareID` (every integer, so zero, the negative values
and the minimum `int64` included), when `RawMallocByteSlice(32)` returns a slice
of length 32, `ShareSURLInfoSign(shareID)` does not panic and is exactly 32
bytes, each a lowercase hexadecimal digit (`0`-`9`, `a`-`f`), equal to the
lowercase hexadecimal rendering of the MD5 digest of the decimal string of
`shareID` followed by the salt `_sharesurlinfo!@#`; the result depends on
`shareID` only, not on the content of the allocated slice. -/
theorem ShareSURLInfoSign_spec (resHex0 : List Byte) (shareID : Int)
    (h : resHex0.length = 32) :
    ShareSURLInfoSign resHex0 shareID
      = some (hexLower (md5.Sum (FormatInt shareID ++ asciiBytes "_sharesurlinfo!@#"))) ∧
    parseInt (FormatInt shareID) = shareID ∧
    (hexLower (md5.Sum (FormatInt shareID ++ asciiBytes "_sharesurlinfo!@#"))).length = 32 ∧
    (∀ b ∈ hexLower (md5.Sum (FormatInt shareID ++ asciiBytes "_sharesurlinfo!@#")),
      isLowerHexDigit b = true) ∧
    (∀ other : List Byte, other.length = 32 →
      ShareSURLInfoSign other shareID = ShareSURLInfoSign resHex0 shareID) := by
  have key : ∀ raw : List Byte, raw.length = 32 → ShareSURLInfoSign raw shareID
      = some (hexLower (md5.Sum (FormatInt shareID ++ asciiBytes "_sharesurlinfo!@#"))) := by
    intro raw hraw
    unfold ShareSURLInfoSign
    simp only [ToBytes, shareSalt]
    exact Encode_exact _ _ (by rw [md5_Sum_length, hraw])
  refine ⟨key resHex0 h, parseInt_FormatInt shareID, ?_, hexLower_all _, ?_⟩
  · rw [hexLower_length, md5_Sum_length]
  · intro other ho
    rw [key other ho, key resHex0 h]

set_option maxRecDepth 100000 in
/-- Witness of C10: the minimum `int64` and an allocated slice of 32 bytes `7`. -/
theorem ShareSURLInfoSign_spec_witness :
    ShareSURLInfoSign (List.replicate 32 7) (-9223372036854775808)
      = some (hexLower (md5.Sum
          (FormatInt (-9223372036854775808) ++ asciiBytes "_sharesurlinfo!@#"))) ∧
    parseInt (FormatInt (-9223372036854775808)) = -9223372036854775808 ∧
    (hexLower (md5.Sum
      (FormatInt (-9223372036854775808) ++ asciiBytes "_sharesurlinfo!@#"))).length = 32 ∧
    (∀ b ∈ hexLower (md5.Sum
        (FormatInt (-9223372036854775808) ++ asciiBytes "_sharesurlinfo!@#")),
      isLowerHexDigit b = true) ∧
    (∀ other : List Byte, other.length = 32 →
      ShareSURLInfoSign other (-9223372036854775808)
        = ShareSURLInfoSign (List.replicate 32 7) (-9223372036854775808)) :=
  ShareSURLInfoSign_spec (List.replicate 32 7) (-9223372036854775808) (by decide)

set_option maxRecDepth 100000 in
theorem ShareSURLInfoSign_fixture :
    FormatInt (-9223372036854775808) = asciiBytes "-9223372036854775808" ∧
    FormatInt 0 = asciiBytes "0" ∧
    ShareSURLInfoSign (List.replicate 32 0) (-9223372036854775808)
      = some (asciiBytes "b0a8e83602e87beab53e61444c9bda97") := by
  decide

/-! ## Failure paths of the refresh -/

/-- Counterexample to C11: `refreshAccessToken` with an empty refresh token posts
its request to the token endpoint all the same, and returns whatever the server
answers, here a success. -/
theorem refreshAccessToken_empty_token_posts :
    refreshAccessToken "app" "secret" ""
        (.decoded ⟨"new", "newref", 3600, "basic", "", "", "", ""⟩)
      = (.ok ⟨"new", "newref", 3600, "basic", "", "", "", ""⟩,
          [.postForm tokenURL
            [("grant_type", "refresh_token"), ("refresh_token", ""),
             ("client_id", "app"), ("client_secret", "secret")]]) := by
  decide

/-- Claim C11 (as amended): the refusal of an empty refresh token sits in the
caller. On a near-expiry credential whose `RefreshToken` is empty,
`checkAndRefreshToken` returns an error, sends no request and leaves the account
unchanged, so `refreshAccessToken` is never called with an empty refresh token;
`refreshAccessToken` itself sends its one request for every refresh token. -/
theorem checkAndRefreshToken_empty_refresh_token (u : Baidu) (nowCheck nowStore : Int)
    (x : Exchange OAuthTokenResponse) (saveErr : Option String)
    (hA : u.AccessToken ≠ "") (hR : u.RefreshToken = "")
    (hpos : 0 < u.TokenExpiresAt)
    (hnear : u.TokenExpiresAt * time.Second - nowCheck < 5 * time.Minute) :
    checkAndRefreshToken u nowCheck nowStore x saveErr
      = ⟨some "RefreshToken为空，请重新登录", u, []⟩ ∧
    (∀ appKey secretKey refreshToken : String,
      (refreshAccessToken appKey secretKey refreshToken x).2
        = [refreshRequest appKey secretKey refreshToken]) := by
  constructor
  · unfold checkAndRefreshToken
    rw [if_neg hA, if_pos hpos, if_pos (UntilUnix_lt _ _ hpos hnear), if_pos hR]
  · intro a s t
    cases x with
    | transportError e => rfl
    | readError e => rfl
    | decodeError e => rfl
    | decoded r =>
      by_cases hE : r.Error = "" <;> simp [refreshAccessToken, hE]

/-- Witness of C11 (as amended): an account whose token expires in 100 seconds
and that has no refresh token. -/
theorem checkAndRefreshToken_empty_refresh_token_witness :
    checkAndRefreshToken ⟨7, "tok", "", 1700000100⟩ 1700000000000000000 1700000000000000000
        (.transportError "unreachable") none
      = ⟨some "RefreshToken为空，请重新登录", ⟨7, "tok", "", 1700000100⟩, []⟩ ∧
    (∀ appKey secretKey refreshToken : String,
      (refreshAccessToken appKey secretKey refreshToken (.transportError "unreachable")).2
        = [refreshRequest appKey secretKey refreshToken]) :=
  checkAndRefreshToken_empty_refresh_token ⟨7, "tok", "", 1700000100⟩ 1700000000000000000
    1700000000000000000 (.transportError "unreachable") none
    (by decide) (by decide) (by decide) (by decide)

/-- Claim C12: on every active account whose `AccessToken` is empty, whatever its
`RefreshToken` and `TokenExpiresAt`, `checkAndRefreshToken` returns an error,
produces no effect (no request, no `Save`) and leaves the account unchanged. -/
theorem checkAndRefreshToken_never_authenticated (u : Baidu) (nowCheck nowStore : Int)
    (x : Exchange OAuthTokenResponse) (saveErr : Option String)
    (hA : u.AccessToken = "") :
    checkAndRefreshToken u nowCheck nowStore x saveErr
      = ⟨some "未设置AccessToken，请先登录", u, []⟩ := by
  unfold checkAndRefreshToken
  rw [if_pos hA]

/-- Witness of C12: an account without access token that still holds a refresh
token and an expiry in the past. -/
theorem checkAndRefreshToken_never_authenticated_witness :
    checkAndRefreshToken ⟨0, "", "ref", 1600000000⟩ 1700000000000000000 1700000000000000000
        (.decoded ⟨"new", "newref", 3600, "basic", "", "", "", ""⟩) none
      = ⟨some "未设置AccessToken，请先登录", ⟨0, "", "ref", 1600000000⟩, []⟩ :=
  checkAndRefreshToken_never_authenticated ⟨0, "", "ref", 1600000000⟩ 1700000000000000000
    1700000000000000000 (.decoded ⟨"new", "newref", 3600, "basic", "", "", "", ""⟩) none
    (by decide)

theorem refreshAccessToken_fails (appKey secretKey refreshToken : String)
    (x : Exchange OAuthTokenResponse) (hx : refreshFails x = true) :
    ∃ e, refreshAccessToken appKey secretKey refreshToken x
      = (.err e, [refreshRequest appKey secretKey refreshToken]) := by
  cases x with
  | transportError e => exact ⟨_, rfl⟩
  | readError e => exact ⟨_, rfl⟩
  | decodeError e => exact ⟨_, rfl⟩
  | decoded r =>
    have hE : r.Error ≠ "" := by simpa [refreshFails] using hx
    exact ⟨"刷新令牌失败: " ++ r.Error ++ " - " ++ r.ErrorDescription,
      by simp [refreshAccessToken, hE]⟩

/-- Claim C13: a failed refresh is atomic. When the refresh exchange fails (the
transport, the reading or the decoding fails, or the response carries a
non-empty error field), then for every account `checkAndRefreshToken` leaves
`AccessToken`, `RefreshToken` and `TokenExpiresAt` exactly as they were and
does not call `Save`, and it returns an error whenever it made the exchange;
on a near-expiry credential with a non-empty refresh token it does make the
exchange, so it returns an error after its one request. -/
theorem checkAndRefreshToken_failed_refresh_atomic (u : Baidu) (nowCheck nowStore : Int)
    (x : Exchange OAuthTokenResponse) (saveErr : Option String)
    (hx : refreshFails x = true) :
    (checkAndRefreshToken u nowCheck nowStore x saveErr).user = u ∧
    (∀ e ∈ (checkAndRefreshToken u nowCheck nowStore x saveErr).events, e.isSave = false) ∧
    (requestCount (checkAndRefreshToken u nowCheck nowStore x saveErr).events ≠ 0 →
      (checkAndRefreshToken u nowCheck nowStore x saveErr).err ≠ none) ∧
    (u.AccessToken ≠ "" → u.RefreshToken ≠ "" → 0 < u.TokenExpiresAt →
      u.TokenExpiresAt * time.Second - nowCheck < 5 * time.Minute →
      (checkAndRefreshToken u nowCheck nowStore x saveErr).err ≠ none ∧
      (checkAndRefreshToken u nowCheck nowStore x saveErr).events
        = [refreshRequest DefaultAppKey DefaultSecretKey u.RefreshToken]) := by
  obtain ⟨e, he⟩ := refreshAccessToken_fails DefaultAppKey DefaultSecretKey u.RefreshToken x hx
  have hreq : (refreshRequest DefaultAppKey DefaultSecretKey u.RefreshToken).isSave = false := rfl
  refine ⟨?_, ?_, ?_, ?_⟩
  · unfold checkAndRefreshToken
    split_ifs <;> simp only [he]
  · unfold checkAndRefreshToken
    split_ifs <;> simp [he, hreq]
  · unfold checkAndRefreshToken
    split_ifs <;> simp [he, requestCount]
  · intro hA hR hpos hnear
    unfold checkAndRefreshToken
    rw [if_neg hA, if_pos hpos, if_pos (UntilUnix_lt _ _ hpos hnear), if_neg hR]
    simp [he]

/-- Witness of C13: the server rejects the refresh token of a credential that
expires in 100 seconds. -/
theorem checkAndRefreshToken_failed_refresh_atomic_witness :
    (checkAndRefreshToken ⟨7, "tok", "ref", 1700000100⟩ 1700000000000000000
      1700000001000000000
      (.decoded ⟨"", "", 0, "", "", "", "invalid_grant", "refresh token revoked"⟩)
      none).user = ⟨7, "tok", "ref", 1700000100⟩ ∧
    (∀ e ∈ (checkAndRefreshToken ⟨7, "tok", "ref", 1700000100⟩ 1700000000000000000
      1700000001000000000
      (.decoded ⟨"", "", 0, "", "", "", "invalid_grant", "refresh token revoked"⟩)
      none).events, e.isSave = false) ∧
    (requestCount (checkAndRefreshToken ⟨7, "tok", "ref", 1700000100⟩ 1700000000000000000
      1700000001000000000
      (.decoded ⟨"", "", 0, "", "", "", "invalid_grant", "refresh token revoked"⟩)
      none).events ≠ 0 →
      (checkAndRefreshToken ⟨7, "tok", "ref", 1700000100⟩ 1700000000000000000
        1700000001000000000
        (.decoded ⟨"", "", 0, "", "", "", "invalid_grant", "refresh token revoked"⟩)
        none).err ≠ none) ∧
    (("tok" : String) ≠ "" → ("ref" : String) ≠ "" → (0 : Int) < 1700000100 →
      (1700000100 : Int) * time.Second - 1700000000000000000 < 5 * time.Minute →
      (checkAndRefreshToken ⟨7, "tok", "ref", 1700000100⟩ 1700000000000000000
        1700000001000000000
        (.decoded ⟨"", "", 0, "", "", "", "invalid_grant", "refresh token revoked"⟩)
        none).err ≠ none ∧
      (checkAndRefreshToken ⟨7, "tok", "ref", 1700000100⟩ 1700000000000000000
        1700000001000000000
        (.decoded ⟨"", "", 0, "", "", "", "invalid_grant", "refresh token revoked"⟩)
        none).events = [refreshRequest DefaultAppKey DefaultSecretKey "ref"]) :=
  checkAndRefreshToken_failed_refresh_atomic ⟨7, "tok", "ref", 1700000100⟩ 1700000000000000000
    1700000001000000000
    (.decoded ⟨"", "", 0, "", "", "", "invalid_grant", "refresh token revoked"⟩) none
    (by decide)

/-! ## Persistence and the stored expiry -/

/-- Counterexample to C14: when `Save` fails with `disk full`, both
`checkAndRefreshToken` (after a successful refresh) and `runSDKLogin` (after a
successful authorization) have changed the credential and still return
success. -/
theorem save_failure_still_success :
    checkAndRefreshToken ⟨7, "tok", "ref", 1700000100⟩ 1700000000000000000
        1700000001500000000 (.decoded ⟨"new", "newref", 3600, "basic", "", "", "", ""⟩)
        (some "disk full")
      = ⟨none, ⟨7, "new", "newref", 1700003601⟩,
          [refreshRequest DefaultAppKey DefaultSecretKey "ref",
           .save ⟨7, "new", "newref", 1700003601⟩ (some "disk full")]⟩ ∧
    runSDKLogin "app" "secret" ⟨7, "", "", 0⟩
        (.decoded ⟨"dc", "uc", "https://v", "https://q", 1800, 5, "", ""⟩)
        (fun _ => .decoded ⟨"new", "newref", 3600, "basic", "", "", "", ""⟩)
        1700000001500000000 (some "disk full") 3
      = some ⟨none, ⟨7, "new", "newref", 1700003601⟩,
          [deviceCodeRequest "app", .sleep 5000000000, pollRequest "app" "secret" "dc",
           .save ⟨7, "new", "newref", 1700003601⟩ (some "disk full")]⟩ := by
  decide

/-- Claim C14 (as amended): persistence is attempted, not awaited. Whenever
`checkAndRefreshToken` or `runSDKLogin` changes the stored credential, it
returns success and its last effect is the call of `Save`, made after the
change: the account the configuration holds when `Save` is called is the
changed one, the one the operation leaves behind; and every `Save` call of the
operation is such a call. The returned error and the resulting credential are
the same whether `Save` succeeds or fails (the source only prints the error of
`Save`). -/
theorem save_called_result_ignored (u : Baidu) (nowCheck nowStore : Int)
    (x : Exchange OAuthTokenResponse) (saveErr : Option String)
    (appKey secretKey : String) (dx : Exchange DeviceCodeResponse)
    (env : Nat → Exchange OAuthTokenResponse) (fuel : Nat) :
    (((checkAndRefreshToken u nowCheck nowStore x saveErr).user ≠ u →
        (checkAndRefreshToken u nowCheck nowStore x saveErr).err = none ∧
        (checkAndRefreshToken u nowCheck nowStore x saveErr).events.getLast?
          = some (.save (checkAndRefreshToken u nowCheck nowStore x saveErr).user saveErr)) ∧
      (∀ stored err,
        .save stored err ∈ (checkAndRefreshToken u nowCheck nowStore x saveErr).events →
        stored = (checkAndRefreshToken u nowCheck nowStore x saveErr).user ∧ err = saveErr) ∧
      (checkAndRefreshToken u nowCheck nowStore x saveErr).err
        = (checkAndRefreshToken u nowCheck nowStore x none).err ∧
      (checkAndRefreshToken u nowCheck nowStore x saveErr).user
        = (checkAndRefreshToken u nowCheck nowStore x none).user) ∧
    ((∀ out, runSDKLogin appKey secretKey u dx env nowStore saveErr fuel = some out →
        (out.user ≠ u →
          out.err = none ∧ out.events.getLast? = some (.save out.user saveErr)) ∧
        (out.err = none → out.events.getLast? = some (.save out.user saveErr))) ∧
      (runSDKLogin appKey secretKey u dx env nowStore saveErr fuel).map
          (fun out => (out.err, out.user))
        = (runSDKLogin appKey secretKey u dx env nowStore none fuel).map
          (fun out => (out.err, out.user))) := by
  constructor
  · unfold checkAndRefreshToken
    cases x with
    | transportError e => split_ifs <;> simp [refreshAccessToken, refreshRequest]
    | readError e => split_ifs <;> simp [refreshAccessToken, refreshRequest]
    | decodeError e => split_ifs <;> simp [refreshAccessToken, refreshRequest]
    | decoded r =>
      by_cases hE : r.Error = "" <;> split_ifs <;>
        simp [refreshAccessToken, hE, refreshRequest]
  · unfold runSDKLogin
    cases dx with
    | transportError e => simp [getDeviceCode]
    | readError e => simp [getDeviceCode]
    | decodeError e => simp [getDeviceCode]
    | decoded d =>
      by_cases hE : d.Error = ""
      · simp only [getDeviceCode, hE, ne_eq, not_true_eq_false, if_false]
        cases hres : (pollAccessToken (if appKey = "" then DefaultAppKey else appKey)
            (if secretKey = "" then DefaultSecretKey else secretKey)
            d.DeviceCode d.Interval env fuel).result with
        | none => simp
        | some res =>
          cases res with
          | ok r =>
            simp only [Option.some.injEq, Option.map_some', and_true, forall_eq', true_and,
              true_implies]
            exact ⟨fun _ => List.getLast?_concat _, List.getLast?_concat _⟩
          | err e =>
            simp only [Option.some.injEq, Option.map_some', and_true]
            intro out hout
            rw [← hout]
            simp
      · simp [getDeviceCode, hE]

theorem stored_expiry_iff (nowNs e : Int) (h0 : -9223372036 ≤ e) (h1 : e ≤ 9223372036) :
    nowNs < time.NowAddUnix nowNs (time.Seconds e) * time.Second ↔ 0 < e := by
  rw [Seconds_eq e h0 h1]
  unfold time.NowAddUnix time.Second
  constructor <;> intro h <;> omega

theorem pollDecide_done_ok (x : Exchange OAuthTokenResponse) (i : Int) (r : OAuthTokenResponse)
    (h : pollDecide x i = .done (.ok r)) : x = .decoded r ∧ r.Error = "" := by
  cases x with
  | transportError e => simp [pollDecide] at h
  | readError e => simp [pollDecide] at h
  | decodeError e => simp [pollDecide] at h
  | decoded p =>
    by_cases hE : p.Error = ""
    · have hd : pollDecide (.decoded p) i = .done (.ok p) := by simp [pollDecide, hE]
      rw [hd] at h
      have hp : p = r := Result.ok.inj (PollStep.done.inj h)
      rw [← hp]
      exact ⟨rfl, hE⟩
    · exfalso
      unfold pollDecide at h
      simp only [ne_eq, hE, not_false_eq_true, if_true] at h
      split_ifs at h <;> simp at h

theorem pollLoop_ok_from_env (appKey secretKey deviceCode : String)
    (env : Nat → Exchange OAuthTokenResponse) (r : OAuthTokenResponse) :
    ∀ (fuel n : Nat) (i : Int) (evs : List Event),
      (pollLoop appKey secretKey deviceCode env fuel n i evs).result = some (.ok r) →
      ∃ m, env m = .decoded r ∧ r.Error = "" := by
  intro fuel
  induction fuel with
  | zero => intro n i evs h; simp [pollLoop] at h
  | succ f ih =>
    intro n i evs h
    cases hd : pollDecide (env n) i with
    | again i1 =>
      simp only [pollLoop, hd] at h
      exact ih _ _ _ h
    | done res =>
      simp only [pollLoop, hd, Option.some.injEq] at h
      rw [h] at hd
      exact ⟨n, pollDecide_done_ok _ _ _ hd⟩

/-- Counterexample to C15: a successful refresh response with `expires_in = 0`
stores the new access token with `TokenExpiresAt = 1700000001`, which is not
later than the current time 1700000001.5; and a login whose token response has
`expires_in = -3600` stores an expiry one hour in the past. -/
theorem stored_expiry_not_in_future :
    (checkAndRefreshToken ⟨7, "tok", "ref", 1700000100⟩ 1700000000000000000
        1700000001500000000 (.decoded ⟨"new", "", 0, "basic", "", "", "", ""⟩) none
      = ⟨none, ⟨7, "new", "ref", 1700000001⟩,
          [refreshRequest DefaultAppKey DefaultSecretKey "ref",
           .save ⟨7, "new", "ref", 1700000001⟩ none]⟩ ∧
      (1700000001 : Int) * time.Second ≤ 1700000001500000000) ∧
    (runSDKLogin "app" "secret" ⟨7, "", "", 0⟩
        (.decoded ⟨"dc", "uc", "https://v", "https://q", 1800, 5, "", ""⟩)
        (fun _ => .decoded ⟨"new", "newref", -3600, "basic", "", "", "", ""⟩)
        1700000001500000000 none 3
      = some ⟨none, ⟨7, "new", "newref", 1699996401⟩,
          [deviceCodeRequest "app", .sleep 5000000000, pollRequest "app" "secret" "dc",
           .save ⟨7, "new", "newref", 1699996401⟩ none]⟩ ∧
      (1699996401 : Int) * time.Second ≤ 1700000001500000000) := by
  decide

/-- Claim C15 (as amended): the stored expiry lies in the future exactly when the
server says so. When the token response that is stored carries an `expires_in`
between -9223372036 and 9223372036, the `TokenExpiresAt` that
`checkAndRefreshToken` or `runSDKLogin` stores with its access token, and that
the configuration holds when `Save` is called, is strictly later than the
current time at that moment if and only if that `expires_in` is positive. The
source checks neither `expires_in` nor that the access token is non-empty;
responses that are not stored (such as `authorization_pending` replies) are
under no condition. -/
theorem stored_expiry_in_future (u : Baidu) (nowCheck nowStore : Int)
    (r : OAuthTokenResponse) (saveErr : Option String)
    (appKey secretKey : String) (dx : Exchange DeviceCodeResponse)
    (env : Nat → Exchange OAuthTokenResponse) (fuel : Nat)
    (h0 : -9223372036 ≤ r.ExpiresIn) (h1 : r.ExpiresIn ≤ 9223372036)
    (henv : ∀ n p, env n = .decoded p → p.Error = "" →
      -9223372036 ≤ p.ExpiresIn ∧ p.ExpiresIn ≤ 9223372036) :
    (∀ stored,
      .save stored saveErr ∈ (checkAndRefreshToken u nowCheck nowStore (.decoded r)
        saveErr).events →
      stored = (checkAndRefreshToken u nowCheck nowStore (.decoded r) saveErr).user ∧
      stored.AccessToken = r.AccessToken ∧
      (nowStore < stored.TokenExpiresAt * time.Second ↔ 0 < r.ExpiresIn)) ∧
    (∀ out, runSDKLogin appKey secretKey u dx env nowStore saveErr fuel = some out →
      out.err = none →
      ∃ m p, env m = .decoded p ∧ p.Error = "" ∧
        out.events.getLast? = some (.save out.user saveErr) ∧
        out.user.AccessToken = p.AccessToken ∧
        (nowStore < out.user.TokenExpiresAt * time.Second ↔ 0 < p.ExpiresIn)) := by
  constructor
  · have hl := stored_expiry_iff nowStore r.ExpiresIn h0 h1
    unfold checkAndRefreshToken
    by_cases hE : r.Error = "" <;> split_ifs <;>
      simp [refreshAccessToken, hE, refreshRequest, hl]
    split_ifs <;> rfl
  · unfold runSDKLogin
    cases dx with
    | transportError e => simp [getDeviceCode]
    | readError e => simp [getDeviceCode]
    | decodeError e => simp [getDeviceCode]
    | decoded d =>
      by_cases hE : d.Error = ""
      · simp only [getDeviceCode, hE, ne_eq, not_true_eq_false, if_false]
        cases hres : (pollAccessToken (if appKey = "" then DefaultAppKey else appKey)
            (if secretKey = "" then DefaultSecretKey else secretKey)
            d.DeviceCode d.Interval env fuel).result with
        | none => simp
        | some res =>
          cases res with
          | ok p =>
            obtain ⟨m, hm, hpE⟩ := pollLoop_ok_from_env _ _ _ env p fuel 0 d.Interval [] hres
            have hp := henv m p hm hpE
            have hl := stored_expiry_iff nowStore p.ExpiresIn hp.1 hp.2
            simp only [Option.some.injEq, forall_eq', true_implies]
            exact ⟨m, p, hm, hpE, List.getLast?_concat _, rfl, hl⟩
          | err e => simp
      · simp [getDeviceCode, hE]

/-- Witness of C15 (as amended): a login with one `authorization_pending` reply
(which decodes to `expires_in = 0`) before a token that carries
`expires_in = 3600`. -/
theorem stored_expiry_in_future_witness :
    (∀ stored,
      .save stored none ∈ (checkAndRefreshToken ⟨7, "tok", "ref", 1700000100⟩
        1700000000000000000 1700000001500000000
        (.decoded ⟨"new", "", 3600, "basic", "", "", "", ""⟩) none).events →
      stored = (checkAndRefreshToken ⟨7, "tok", "ref", 1700000100⟩
        1700000000000000000 1700000001500000000
        (.decoded ⟨"new", "", 3600, "basic", "", "", "", ""⟩) none).user ∧
      stored.AccessToken = "new" ∧
      (1700000001500000000 < stored.TokenExpiresAt * time.Second ↔ (0 : Int) < 3600)) ∧
    (∀ out, runSDKLogin "app" "secret" ⟨7, "tok", "ref", 1700000100⟩
        (.decoded ⟨"dc", "uc", "https://v", "https://q", 1800, 5, "", ""⟩)
        (fun n => if n = 0 then pendingForever 0
          else .decoded ⟨"new", "", 3600, "basic", "", "", "", ""⟩)
        1700000001500000000 none 3 = some out →
      out.err = none →
      ∃ m p, (fun n => if n = 0 then pendingForever 0
          else .decoded ⟨"new", "", 3600, "basic", "", "", "", ""⟩) m = .decoded p ∧
        p.Error = "" ∧
        out.events.getLast? = some (.save out.user none) ∧
        out.user.AccessToken = p.AccessToken ∧
        (1700000001500000000 < out.user.TokenExpiresAt * time.Second ↔ 0 < p.ExpiresIn)) :=
  stored_expiry_in_future ⟨7, "tok", "ref", 1700000100⟩ 1700000000000000000
    1700000001500000000 ⟨"new", "", 3600, "basic", "", "", "", ""⟩ none "app" "secret"
    (.decoded ⟨"dc", "uc", "https://v", "https://q", 1800, 5, "", ""⟩)
    (fun n => if n = 0 then pendingForever 0
      else .decoded ⟨"new", "", 3600, "basic", "", "", "", ""⟩) 3
    (by decide) (by decide)
    (fun n p h hE => by
      by_cases hn : n = 0
      · simp only [hn, if_true, pendingForever] at h
        have hp := Exchange.decoded.inj h
        rw [← hp] at hE
        exact absurd hE (by decide)
      · simp only [hn, if_false] at h
        have hp := Exchange.decoded.inj h
        rw [← hp]
        decide)

/-! ## `getDeviceCode` and the exported wrapper -/

/-- Claim C16: for every device-code response body that decodes, `getDeviceCode`
returns an error if and only if the error field of the response is non-empty,
and that error carries the server's error code and `error_description`;
otherwise it returns the decoded response, with its `device_code`,
`user_code`, `verification_url`, `qrcode_url`, `expires_in` and `interval`,
unchanged. Either way it has sent its one request. -/
theorem getDeviceCode_decoded (appKey : String) (d : DeviceCodeResponse) :
    (d.Error ≠ "" →
      getDeviceCode appKey (.decoded d)
        = (.err ("获取设备码失败: " ++ d.Error ++ " - " ++ d.ErrorDescription),
            [deviceCodeRequest appKey])) ∧
    (d.Error = "" →
      getDeviceCode appKey (.decoded d) = (.ok d, [deviceCodeRequest appKey])) ∧
    ((∃ e, (getDeviceCode appKey (.decoded d)).1 = .err e) ↔ d.Error ≠ "") := by
  refine ⟨?_, ?_, ?_⟩
  · intro h; simp [getDeviceCode, h]
  · intro h; simp [getDeviceCode, h]
  · by_cases h : d.Error = "" <;> simp [getDeviceCode, h]

/-- Counterexample to C17: a response body with an empty error field and
`expires_in = 0` is returned successfully, as is one with `expires_in = -1`. -/
theorem getDeviceCode_expires_in_not_positive :
    getDeviceCode "app" (.decoded ⟨"dc", "uc", "https://v", "https://q", 0, 5, "", ""⟩)
      = (.ok ⟨"dc", "uc", "https://v", "https://q", 0, 5, "", ""⟩, [deviceCodeRequest "app"]) ∧
    getDeviceCode "app" (.decoded ⟨"dc", "uc", "https://v", "https://q", -1, 5, "", ""⟩)
      = (.ok ⟨"dc", "uc", "https://v", "https://q", -1, 5, "", ""⟩,
          [deviceCodeRequest "app"]) := by
  decide

/-- Claim C17 (as amended): `getDeviceCode` does not check `expires_in`. Every
DeviceAuthorization it returns successfully is the decoded response body itself,
with an empty error field, so its `expires_in` is the value the server sent and
is positive exactly when the server sent a positive value. -/
theorem getDeviceCode_returns_body (appKey : String) (x : Exchange DeviceCodeResponse)
    (d : DeviceCodeResponse) (h : (getDeviceCode appKey x).1 = .ok d) :
    x = .decoded d ∧ d.Error = "" ∧
    (0 < d.ExpiresIn ↔ ∃ body, x = .decoded body ∧ 0 < body.ExpiresIn) := by
  cases x with
  | transportError e => simp [getDeviceCode] at h
  | readError e => simp [getDeviceCode] at h
  | decodeError e => simp [getDeviceCode] at h
  | decoded body =>
    by_cases hE : body.Error = ""
    · simp only [getDeviceCode, hE, ne_eq, not_true_eq_false, if_false] at h
      have hb : body = d := Result.ok.inj h
      subst hb
      exact ⟨rfl, hE, by simp⟩
    · simp [getDeviceCode, hE] at h

/-- Witness of C17 (as amended): a response body with `expires_in = 1800`. -/
theorem getDeviceCode_returns_body_witness :
    (.decoded ⟨"dc", "uc", "https://v", "https://q", 1800, 5, "", ""⟩ :
        Exchange DeviceCodeResponse)
      = .decoded ⟨"dc", "uc", "https://v", "https://q", 1800, 5, "", ""⟩ ∧
    (⟨"dc", "uc", "https://v", "https://q", 1800, 5, "", ""⟩ : DeviceCodeResponse).Error = "" ∧
    (0 < (⟨"dc", "uc", "https://v", "https://q", 1800, 5, "", ""⟩ :
        DeviceCodeResponse).ExpiresIn ↔
      ∃ body, (.decoded ⟨"dc", "uc", "https://v", "https://q", 1800, 5, "", ""⟩ :
        Exchange DeviceCodeResponse) = .decoded body ∧ 0 < body.ExpiresIn) :=
  getDeviceCode_returns_body "app"
    (.decoded ⟨"dc", "uc", "https://v", "https://q", 1800, 5, "", ""⟩)
    ⟨"dc", "uc", "https://v", "https://q", 1800, 5, "", ""⟩ (by decide)

/-- Claim C18 (the code at the failing input): the exported
`CheckAndRefreshToken` returns `nil` without looking at the account, whereas
`checkAndRefreshToken` on an active account without access token returns an
error, and so it does on a near-expiry credential whose refresh is rejected. -/
theorem CheckAndRefreshToken_returns_nil :
    CheckAndRefreshToken = none ∧
    (checkAndRefreshToken ⟨0, "", "", 0⟩ 1700000000000000000 1700000000000000000
      (.transportError "unreachable") none).err = some "未设置AccessToken，请先登录" ∧
    (checkAndRefreshToken ⟨7, "tok", "ref", 1700000100⟩ 1700000000000000000
      1700000000000000000
      (.decoded ⟨"", "", 0, "", "", "", "invalid_grant", "revoked"⟩) none).err
      = some "刷新令牌失败: 刷新令牌失败: invalid_grant - revoked" := by
  decide

/-! ## The order of sleeps and requests in the polling loop -/

theorem intervalAt_succ_cases (env : Nat → Exchange OAuthTokenResponse) (i : Int) (n : Nat) :
    intervalAt env i (n + 1) = intervalAt env i n ∨
    intervalAt env i (n + 1) = wrapInt64 (intervalAt env i n + 5) := by
  cases hd : pollDecide (env n) (intervalAt env i n) with
  | again i1 =>
    have h : intervalAt env i (n + 1) = i1 := by simp only [intervalAt, hd]
    rw [h]
    exact pollDecide_again_cases _ _ _ hd
  | done r =>
    left
    simp only [intervalAt, hd]

theorem intervalAt_bounds (env : Nat → Exchange OAuthTokenResponse) (i : Int) (h0 : 0 ≤ i) :
    ∀ n : Nat, i + 5 * n ≤ 9223372036 →
      i ≤ intervalAt env i n ∧ intervalAt env i n ≤ i + 5 * n := by
  intro n
  induction n with
  | zero => intro _; simp [intervalAt]
  | succ n ih =>
    intro h
    have hn := ih (by push_cast at h; omega)
    rcases intervalAt_succ_cases env i n with hc | hc
    · rw [hc]; push_cast; omega
    · rw [hc]; unfold wrapInt64; push_cast; omega

theorem pollTraceUpTo_head (appKey secretKey deviceCode : String)
    (env : Nat → Exchange OAuthTokenResponse) (i : Int) :
    ∀ n : Nat, (pollTraceUpTo appKey secretKey deviceCode env i (n + 1)).head?
      = some (.sleep (time.Seconds i)) := by
  intro n
  induction n with
  | zero => simp [pollTraceUpTo, intervalAt]
  | succ n ih =>
    have hne : pollTraceUpTo appKey secretKey deviceCode env i (n + 1) ≠ [] := by
      intro h
      rw [h] at ih
      simp at ih
    rw [pollTraceUpTo, List.head?_append_of_ne_nil _ hne, ih]

theorem pollLoop_trace (appKey secretKey deviceCode : String)
    (env : Nat → Exchange OAuthTokenResponse) (i0 : Int) :
    ∀ (fuel n : Nat),
      (pollLoop appKey secretKey deviceCode env fuel n (intervalAt env i0 n)
          (pollTraceUpTo appKey secretKey deviceCode env i0 n)).events
        = pollTraceUpTo appKey secretKey deviceCode env i0
            (pollLoop appKey secretKey deviceCode env fuel n (intervalAt env i0 n)
              (pollTraceUpTo appKey secretKey deviceCode env i0 n)).requests ∧
      (pollLoop appKey secretKey deviceCode env fuel n (intervalAt env i0 n)
          (pollTraceUpTo appKey secretKey deviceCode env i0 n)).requests ≤ n + fuel ∧
      (0 < fuel →
        n < (pollLoop appKey secretKey deviceCode env fuel n (intervalAt env i0 n)
          (pollTraceUpTo appKey secretKey deviceCode env i0 n)).requests) := by
  intro fuel
  induction fuel with
  | zero => intro n; simp [pollLoop]
  | succ f ih =>
    intro n
    cases hd : pollDecide (env n) (intervalAt env i0 n) with
    | again i1 =>
      have hi : intervalAt env i0 (n + 1) = i1 := by simp only [intervalAt, hd]
      have := ih (n + 1)
      rw [hi] at this
      simp only [pollLoop, hd]
      simp only [pollTraceUpTo] at this
      refine ⟨this.1, by omega, fun _ => ?_⟩
      have h2 := this.2.1
      by_cases hf : 0 < f
      · have := this.2.2 hf; omega
      · have hf0 : f = 0 := by omega
        subst hf0
        simp [pollLoop]
    | done r =>
      simp only [pollLoop, hd]
      exact ⟨by simp [pollTraceUpTo], by omega, fun _ => by omega⟩

/-- Counterexample to C20: with interval 0 (what a device-code response without
`interval` decodes to) the sleeps return at once, so the first request is sent
immediately and the second follows with no pause; and with interval
9223372037 the duration of the sleep overflows to a negative value, so two
consecutive requests are separated by no pause instead of 9223372037 seconds. -/
theorem pollAccessToken_polls_immediately :
    ((pollAccessToken "app" "secret" "dc" 0 pendingForever 2).events
        = [.sleep 0, pollRequest "app" "secret" "dc",
           .sleep 0, pollRequest "app" "secret" "dc"] ∧
      totalSlept (pollAccessToken "app" "secret" "dc" 0 pendingForever 2).events = 0) ∧
    ((pollAccessToken "app" "secret" "dc" 9223372037 pendingForever 2).events
        = [.sleep (-9223372036709551616), pollRequest "app" "secret" "dc",
           .sleep (-9223372036709551616), pollRequest "app" "secret" "dc"] ∧
      totalSlept (pollAccessToken "app" "secret" "dc" 9223372037 pendingForever 2).events
        = 0) := by
  decide

/-- Claim C20 (as amended): for every device code and every interval `i`,
`pollAccessToken` calls `time.Sleep(time.Duration(interval) * time.Second)`
before every request: its trace is, iteration by iteration, the sleep call of
the then-current interval followed by the request, and its first action is the
sleep call of `i`. For `0 < i` that cannot leave the range of a `Duration`
within the iterations run (`i + 5 * fuel ≤ 9223372036`) it never polls
immediately: every sleep lasts exactly the then-current interval, which is at
least `i` seconds. For `i` between -9223372036 and 0 the first sleep returns
at once, so the first poll is immediate. -/
theorem pollAccessToken_sleeps_before_each_request (appKey secretKey deviceCode : String)
    (env : Nat → Exchange OAuthTokenResponse) (fuel : Nat) (i : Int) :
    (pollAccessToken appKey secretKey deviceCode i env fuel).events
      = pollTraceUpTo appKey secretKey deviceCode env i
          (pollAccessToken appKey secretKey deviceCode i env fuel).requests ∧
    (0 < fuel → (pollAccessToken appKey secretKey deviceCode i env fuel).events.head?
      = some (.sleep (time.Seconds i))) ∧
    (0 < i → i + 5 * fuel ≤ 9223372036 →
      ∀ n, n < (pollAccessToken appKey secretKey deviceCode i env fuel).requests →
        i ≤ intervalAt env i n ∧
        time.Seconds (intervalAt env i n) = intervalAt env i n * time.Second ∧
        time.Slept (time.Seconds (intervalAt env i n))
          = (intervalAt env i n).toNat * 1000000000) ∧
    (-9223372036 ≤ i → i ≤ 0 →
      time.Seconds i = i * time.Second ∧ time.Slept (time.Seconds i) = 0) := by
  have ht := pollLoop_trace appKey secretKey deviceCode env i fuel 0
  simp only [intervalAt, pollTraceUpTo] at ht
  have hev : (pollAccessToken appKey secretKey deviceCode i env fuel).events
      = pollTraceUpTo appKey secretKey deviceCode env i
          (pollAccessToken appKey secretKey deviceCode i env fuel).requests := ht.1
  refine ⟨hev, ?_, ?_, ?_⟩
  · intro hf
    have hpos : 0 < (pollAccessToken appKey secretKey deviceCode i env fuel).requests :=
      ht.2.2 hf
    obtain ⟨m, hm⟩ : ∃ m, (pollAccessToken appKey secretKey deviceCode i env fuel).requests
        = m + 1 := ⟨_, (Nat.succ_pred_eq_of_pos hpos).symm⟩
    rw [hev, hm, pollTraceUpTo_head]
  · intro h0 hrun n hn
    have hle : (pollAccessToken appKey secretKey deviceCode i env fuel).requests ≤ 0 + fuel :=
      ht.2.1
    have hb := intervalAt_bounds env i (by omega) n (by omega)
    have hs := Seconds_eq (intervalAt env i n) (by omega) (by omega)
    refine ⟨hb.1, ?_, ?_⟩
    · rw [hs]; rfl
    · exact Slept_Seconds _ (by omega) (by omega)
  · intro hlo hhi
    have hs := Seconds_eq i hlo (by omega)
    refine ⟨by rw [hs]; rfl, ?_⟩
    rw [hs]
    unfold time.Slept
    omega

/-- Witness of C20 (as amended): interval 5, four iterations, `slow_down` on the
first poll. -/
theorem pollAccessToken_sleeps_before_each_request_witness :
    (pollAccessToken "app" "secret" "dc" 5
        (fun n => if n = 0 then .decoded slowDown else pendingForever n) 4).events
      = pollTraceUpTo "app" "secret" "dc"
          (fun n => if n = 0 then .decoded slowDown else pendingForever n) 5
          (pollAccessToken "app" "secret" "dc" 5
            (fun n => if n = 0 then .decoded slowDown else pendingForever n) 4).requests ∧
    (∀ n, n < (pollAccessToken "app" "secret" "dc" 5
        (fun n => if n = 0 then .decoded slowDown else pendingForever n) 4).requests →
      5 ≤ intervalAt (fun n => if n = 0 then .decoded slowDown else pendingForever n) 5 n ∧
      time.Seconds
          (intervalAt (fun n => if n = 0 then .decoded slowDown else pendingForever n) 5 n)
        = intervalAt (fun n => if n = 0 then .decoded slowDown else pendingForever n) 5 n
            * time.Second ∧
      time.Slept (time.Seconds
          (intervalAt (fun n => if n = 0 then .decoded slowDown else pendingForever n) 5 n))
        = (intervalAt (fun n => if n = 0 then .decoded slowDown else pendingForever n)
            5 n).toNat * 1000000000) :=
  ⟨(pollAccessToken_sleeps_before_each_request "app" "secret" "dc"
      (fun n => if n = 0 then .decoded slowDown else pendingForever n) 4 5).1,
    (pollAccessToken_sleeps_before_each_request "app" "secret" "dc"
      (fun n => if n = 0 then .decoded slowDown else pendingForever n) 4 5).2.2.1
      (by decide) (by decide)⟩

theorem pollTraceUpTo_example :
    pollTraceUpTo "app" "secret" "dc"
        (fun n => if n = 0 then .decoded slowDown else pendingForever n) 5 3
      = [.sleep 5000000000, pollRequest "app" "secret" "dc",
         .sleep 10000000000, pollRequest "app" "secret" "dc",
         .sleep 10000000000, pollRequest "app" "secret" "dc"] := by
  decide

/-! ## Non-terminal poll outcomes -/

theorem keepsInterval_again (x : Exchange OAuthTokenResponse) (i : Int)
    (hx : keepsInterval x = true) : pollDecide x i = .again i := by
  cases x with
  | transportError e => rfl
  | readError e => rfl
  | decodeError e => rfl
  | decoded r =>
    have hp : r.Error = "authorization_pending" := by simpa [keepsInterval] using hx
    simp [pollDecide, hp]

theorem pollLoop_events_extend (appKey secretKey deviceCode : String)
    (env : Nat → Exchange OAuthTokenResponse) :
    ∀ (fuel n : Nat) (i : Int) (evs : List Event),
      ∃ rest, (pollLoop appKey secretKey deviceCode env fuel n i evs).events = evs ++ rest := by
  intro fuel
  induction fuel with
  | zero => intro n i evs; exact ⟨[], by simp [pollLoop]⟩
  | succ f ih =>
    intro n i evs
    cases hd : pollDecide (env n) i with
    | again i1 =>
      obtain ⟨rest, hr⟩ := ih (n + 1) i1
        (evs ++ [.sleep (time.Seconds i), pollRequest appKey secretKey deviceCode])
      refine ⟨[.sleep (time.Seconds i), pollRequest appKey secretKey deviceCode] ++ rest, ?_⟩
      simp only [pollLoop, hd, hr, List.append_assoc]
    | done r =>
      exact ⟨[.sleep (time.Seconds i), pollRequest appKey secretKey deviceCode],
        by simp only [pollLoop, hd]⟩

theorem pollLoop_first_events (appKey secretKey deviceCode : String)
    (env : Nat → Exchange OAuthTokenResponse) (fuel n : Nat) (i : Int) (evs : List Event) :
    ∃ rest, (pollLoop appKey secretKey deviceCode env (fuel + 1) n i evs).events
      = evs ++ [.sleep (time.Seconds i), pollRequest appKey secretKey deviceCode] ++ rest := by
  cases hd : pollDecide (env n) i with
  | again i1 =>
    obtain ⟨rest, hr⟩ := pollLoop_events_extend appKey secretKey deviceCode env fuel (n + 1) i1
      (evs ++ [.sleep (time.Seconds i), pollRequest appKey secretKey deviceCode])
    exact ⟨rest, by simp only [pollLoop, hd, hr]⟩
  | done r => exact ⟨[], by simp only [pollLoop, hd, List.append_nil]⟩

/-- Counterexample to C21: with interval 9223372037 and a transport failure on
the first poll, the loop goes on with the interval unchanged, but the next
sleep is the overflowed duration of -9223372036709551616 nanoseconds, a pause
of 0 seconds and not of 9223372037 seconds. -/
theorem pollAccessToken_next_sleep_overflow :
    pollAccessToken "app" "secret" "dc" 9223372037
        (fun n => if n = 0 then .transportError "connection reset"
          else .decoded ⟨"tok", "ref", 3600, "basic", "", "", "", ""⟩) 5
      = ⟨some (.ok ⟨"tok", "ref", 3600, "basic", "", "", "", ""⟩), 9223372037, 2,
          [.sleep (-9223372036709551616), pollRequest "app" "secret" "dc",
           .sleep (-9223372036709551616), pollRequest "app" "secret" "dc"]⟩ ∧
    time.Slept (-9223372036709551616) = 0 := by
  decide

/-- Claim C21 (as amended): non-terminal poll outcomes keep the loop of
`pollAccessToken` running with the interval unchanged. For every current
interval `i`, after an `authorization_pending` response, a transport failure, a
body-read failure or an undecodable body, the iteration ends with `continue`
and the same `i`; the loop does not return there, and its next action is the
same sleep `time.Duration(i) * time.Second` as before, followed by the next
request. That sleep lasts exactly `i` seconds when `0 ≤ i ≤ 9223372036`. -/
theorem pollAccessToken_non_terminal_keeps_interval (x : Exchange OAuthTokenResponse)
    (i : Int) (hx : keepsInterval x = true) :
    pollDecide x i = .again i ∧
    (∀ (appKey secretKey deviceCode : String) (env : Nat → Exchange OAuthTokenResponse)
        (fuel n : Nat) (evs : List Event), env n = x →
      pollLoop appKey secretKey deviceCode env (fuel + 2) n i evs
        = pollLoop appKey secretKey deviceCode env (fuel + 1) (n + 1) i
            (evs ++ [.sleep (time.Seconds i), pollRequest appKey secretKey deviceCode]) ∧
      ∃ rest, (pollLoop appKey secretKey deviceCode env (fuel + 2) n i evs).events
        = evs ++ [.sleep (time.Seconds i), pollRequest appKey secretKey deviceCode]
            ++ [.sleep (time.Seconds i), pollRequest appKey secretKey deviceCode] ++ rest) ∧
    (0 ≤ i → i ≤ 9223372036 →
      time.Seconds i = i * time.Second ∧
      time.Slept (time.Seconds i) = i.toNat * 1000000000) := by
  have hagain := keepsInterval_again x i hx
  refine ⟨hagain, ?_, ?_⟩
  · intro appKey secretKey deviceCode env fuel n evs hn
    have hstep : pollLoop appKey secretKey deviceCode env (fuel + 2) n i evs
        = pollLoop appKey secretKey deviceCode env (fuel + 1) (n + 1) i
            (evs ++ [.sleep (time.Seconds i), pollRequest appKey secretKey deviceCode]) := by
      rw [← hn] at hagain
      simp only [pollLoop, hagain]
    refine ⟨hstep, ?_⟩
    obtain ⟨rest, hr⟩ := pollLoop_first_events appKey secretKey deviceCode env fuel (n + 1) i
      (evs ++ [.sleep (time.Seconds i), pollRequest appKey secretKey deviceCode])
    exact ⟨rest, by rw [hstep, hr]⟩
  · intro h0 h1
    exact ⟨by rw [Seconds_eq i (by omega) h1]; rfl, Slept_Seconds i h0 h1⟩

/-- Witness of C21 (as amended): an `authorization_pending` response at
interval 5. -/
theorem pollAccessToken_non_terminal_keeps_interval_witness :
    pollDecide (pendingForever 0) 5 = .again 5 ∧
    (∀ (appKey secretKey deviceCode : String) (env : Nat → Exchange OAuthTokenResponse)
        (fuel n : Nat) (evs : List Event), env n = pendingForever 0 →
      pollLoop appKey secretKey deviceCode env (fuel + 2) n 5 evs
        = pollLoop appKey secretKey deviceCode env (fuel + 1) (n + 1) 5
            (evs ++ [.sleep (time.Seconds 5), pollRequest appKey secretKey deviceCode]) ∧
      ∃ rest, (pollLoop appKey secretKey deviceCode env (fuel + 2) n 5 evs).events
        = evs ++ [.sleep (time.Seconds 5), pollRequest appKey secretKey deviceCode]
            ++ [.sleep (time.Seconds 5), pollRequest appKey secretKey deviceCode] ++ rest) ∧
    ((0 : Int) ≤ 5 → (5 : Int) ≤ 9223372036 →
      time.Seconds 5 = 5 * time.Second ∧
      time.Slept (time.Seconds 5) = (5 : Int).toNat * 1000000000) :=
  pollAccessToken_non_terminal_keeps_interval (pendingForever 0) 5 (by decide)
/-! ## `FormatFileSize` -/

theorem ui_sizeLoop_eq : ∀ fuel n div exp : Nat,
    ui.sizeLoop fuel n div exp = common.sizeLoop fuel n div exp := by
  intro fuel
  induction fuel with
  | zero => intro n div exp; rfl
  | succ f ih => intro n div exp; simp only [ui.sizeLoop, common.sizeLoop, ih]

theorem sdk_sizeLoop_eq : ∀ fuel n div exp : Nat,
    sdk.sizeLoop fuel n div exp = common.sizeLoop fuel n div exp := by
  intro fuel
  induction fuel with
  | zero => intro n div exp; rfl
  | succ f ih => intro n div exp; simp only [sdk.sizeLoop, common.sizeLoop, ih]

theorem common_sizeLoop_spec (size : Nat) (hsize : size < 18446744073709551616) :
    ∀ fuel n e : Nat, n ≤ fuel → 1 ≤ n → n = size / 1024 ^ (e + 1) →
      (common.sizeLoop fuel n (1024 ^ (e + 1)) e).1
          = 1024 ^ ((common.sizeLoop fuel n (1024 ^ (e + 1)) e).2 + 1) ∧
        (common.sizeLoop fuel n (1024 ^ (e + 1)) e).1 ≤ size ∧
        size < 1024 * (common.sizeLoop fuel n (1024 ^ (e + 1)) e).1 := by
  intro fuel
  induction fuel with
  | zero => intro n e h0 h1 _; omega
  | succ f ih =>
    intro n e hle h1 hn
    have hpos : 0 < 1024 ^ (e + 1) := Nat.pow_pos (by decide)
    by_cases hge : n ≥ 1024
    · have hmul : 1024 * 1024 ^ (e + 1) ≤ size := by
        have : 1024 ≤ size / 1024 ^ (e + 1) := by omega
        exact (Nat.le_div_iff_mul_le hpos).mp this
      have hw : wrapUint64 (1024 ^ (e + 1) * 1024) = 1024 ^ (e + 1 + 1) := by
        unfold wrapUint64
        rw [Nat.mod_eq_of_lt (by omega)]
        rfl
      have hn1 : n / 1024 = size / 1024 ^ (e + 1 + 1) := by
        rw [hn, Nat.div_div_eq_div_mul]
        rfl
      have := ih (n / 1024) (e + 1) (by omega) (by omega) hn1
      simp only [common.sizeLoop, hge, if_true, hw]
      exact this
    · have hlt : size / 1024 ^ (e + 1) < 1024 := by omega
      simp only [common.sizeLoop, hge, if_false]
      refine ⟨trivial, ?_, ?_⟩
      · by_contra hc
        have : size / 1024 ^ (e + 1) = 0 := Nat.div_eq_of_lt (by omega)
        omega
      · exact (Nat.div_lt_iff_lt_mul hpos).mp hlt

theorem unit_in_range (exp : Nat) (h : exp ≤ 5) :
    ∃ unit, (asciiBytes "KMGTPE").get? exp = some unit := by
  interval_cases exp <;> exact ⟨_, rfl⟩

/-- Claim C22: `FormatFileSize` never indexes outside the unit table. For every
`uint64` size of 1024 or more the loop ends with `exp ≤ 5`, so `"KMGTPE"[exp]`
is in range and the function does not panic, and `div` is `1024^(exp+1)`
without `uint64` overflow, with `div ≤ size < 1024 * div`; for every size below
1024 the result is the decimal size followed by ` B`. The copies in `ui` and
`sdk` compute the same `div` and `exp`, and the same result, as the one in
`common`. -/
theorem FormatFileSize_unit_in_range (size : Nat) (hsize : size < 18446744073709551616) :
    (1024 ≤ size →
      ∃ div exp unit, common.sizeLoop (size / 1024) (size / 1024) 1024 0 = (div, exp) ∧
        exp ≤ 5 ∧ div = 1024 ^ (exp + 1) ∧ div < 18446744073709551616 ∧
        div ≤ size ∧ size < 1024 * div ∧
        (asciiBytes "KMGTPE").get? exp = some unit ∧
        common.FormatFileSize size = some (.scaled size div unit)) ∧
    (size < 1024 →
      common.FormatFileSize size
        = some (.plain (decimalDigits (size + 1) size [] ++ asciiBytes " B")) ∧
      parseInt (decimalDigits (size + 1) size []) = size) ∧
    ui.sizeLoop (size / 1024) (size / 1024) 1024 0
      = common.sizeLoop (size / 1024) (size / 1024) 1024 0 ∧
    sdk.sizeLoop (size / 1024) (size / 1024) 1024 0
      = common.sizeLoop (size / 1024) (size / 1024) 1024 0 ∧
    ui.FormatFileSize size = common.FormatFileSize size ∧
    sdk.FormatFileSize size = common.FormatFileSize size := by
  refine ⟨?_, ?_, ui_sizeLoop_eq _ _ _ _, sdk_sizeLoop_eq _ _ _ _, ?_, ?_⟩
  · intro hge
    have hspec := common_sizeLoop_spec size hsize (size / 1024) (size / 1024) 0
      (Nat.le_refl _) (by omega) (by simp)
    simp only [Nat.zero_add, Nat.pow_one] at hspec
    obtain ⟨hdiv, hle, hlt⟩ := hspec
    generalize hres : common.sizeLoop (size / 1024) (size / 1024) 1024 0 = res at hdiv hle hlt
    obtain ⟨div, exp⟩ := res
    simp only at hdiv hle hlt
    have hexp : exp ≤ 5 := by
      by_contra hc
      have h7 : 1024 ^ 7 ≤ 1024 ^ (exp + 1) := Nat.pow_le_pow_right (by decide) (by omega)
      have : (1024 : Nat) ^ 7 = 1180591620717411303424 := by norm_num
      omega
    obtain ⟨unit, hunit⟩ := unit_in_range exp hexp
    refine ⟨div, exp, unit, rfl, hexp, hdiv, by omega, hle, hlt, hunit, ?_⟩
    unfold common.FormatFileSize
    rw [if_neg (by omega), hres]
    simp only [hunit, Option.map_some']
  · intro hlt
    refine ⟨by unfold common.FormatFileSize; rw [if_pos hlt], ?_⟩
    have := parseInt_FormatInt (size : Int)
    simpa [FormatInt] using this
  · unfold ui.FormatFileSize common.FormatFileSize
    rw [ui_sizeLoop_eq]
  · unfold sdk.FormatFileSize common.FormatFileSize
    rw [sdk_sizeLoop_eq]

/-- Witness of C22: the largest `uint64`, which is formatted in the unit `E`. -/
theorem FormatFileSize_unit_in_range_witness :
    (1024 ≤ 18446744073709551615 →
      ∃ div exp unit,
        common.sizeLoop (18446744073709551615 / 1024) (18446744073709551615 / 1024) 1024 0
          = (div, exp) ∧
        exp ≤ 5 ∧ div = 1024 ^ (exp + 1) ∧ div < 18446744073709551616 ∧
        div ≤ 18446744073709551615 ∧ 18446744073709551615 < 1024 * div ∧
        (asciiBytes "KMGTPE").get? exp = some unit ∧
        common.FormatFileSize 18446744073709551615
          = some (.scaled 18446744073709551615 div unit)) ∧
    (18446744073709551615 < 1024 →
      common.FormatFileSize 18446744073709551615
        = some (.plain (decimalDigits (18446744073709551615 + 1) 18446744073709551615 []
            ++ asciiBytes " B")) ∧
      parseInt (decimalDigits (18446744073709551615 + 1) 18446744073709551615 [])
        = (18446744073709551615 : Nat)) ∧
    ui.sizeLoop (18446744073709551615 / 1024) (18446744073709551615 / 1024) 1024 0
      = common.sizeLoop (18446744073709551615 / 1024) (18446744073709551615 / 1024) 1024 0 ∧
    sdk.sizeLoop (18446744073709551615 / 1024) (18446744073709551615 / 1024) 1024 0
      = common.sizeLoop (18446744073709551615 / 1024) (18446744073709551615 / 1024) 1024 0 ∧
    ui.FormatFileSize 18446744073709551615 = common.FormatFileSize 18446744073709551615 ∧
    sdk.FormatFileSize 18446744073709551615 = common.FormatFileSize 18446744073709551615 :=
  FormatFileSize_unit_in_range 18446744073709551615 (by decide)

theorem FormatFileSize_examples :
    common.FormatFileSize 18446744073709551615
      = some (.scaled 18446744073709551615 1152921504606846976 69) ∧
    common.FormatFileSize 1536 = some (.scaled 1536 1024 75) ∧
    common.FormatFileSize 1048576 = some (.scaled 1048576 1048576 77) ∧
    common.FormatFileSize 1023 = some (.plain (asciiBytes "1023 B")) ∧
    common.FormatFileSize 0 = some (.plain (asciiBytes "0 B")) := by
  decide

/-! ## `RetryOperation` -/

theorem utils_retryLoop_eq (operation : Nat → Option String) (maxRetries delay : Int) :
    ∀ (fuel : Nat) (i : Int) (calls : Nat) (err : Option String) (evs : List RetryEvent),
      utils.retryLoop operation maxRetries delay fuel i calls err evs
        = common.retryLoop operation maxRetries delay fuel i calls err evs := by
  intro fuel
  induction fuel with
  | zero => intro i calls err evs; rfl
  | succ f ih =>
    intro i calls err evs
    simp only [utils.retryLoop, common.retryLoop, ih]

theorem retryLoop_first_success (operation : Nat → Option String)
    (maxRetries delay : Int) (hmax : maxRetries < 9223372036854775807) :
    ∀ (k fuel c : Nat) (err : Option String) (evs : List RetryEvent),
      (c : Int) + k ≤ maxRetries → (∀ j, j < k → operation (c + j) ≠ none) →
      operation (c + k) = none → k < fuel →
      common.retryLoop operation maxRetries delay fuel c c err evs
        = ⟨some none, c + k + 1, evs ++ retryTrace delay k⟩ := by
  intro k
  induction k with
  | zero =>
    intro fuel c err evs hle _ hk hf
    obtain ⟨f, rfl⟩ : ∃ f, fuel = f + 1 := ⟨fuel - 1, by omega⟩
    simp only [Nat.add_zero] at hk
    have hc : (c : Int) ≤ maxRetries := by omega
    simp [common.retryLoop, hc, hk, retryTrace]
  | succ k ih =>
    intro fuel c err evs hle hfail hk hf
    obtain ⟨f, rfl⟩ : ∃ f, fuel = f + 1 := ⟨fuel - 1, by omega⟩
    have h0 := hfail 0 (by omega)
    simp only [Nat.add_zero] at h0
    obtain ⟨e, he⟩ := Option.ne_none_iff_exists'.mp h0
    have hc : (c : Int) ≤ maxRetries := by omega
    have hlt : (c : Int) < maxRetries := by omega
    have hw : wrapInt64 ((c : Int) + 1) = ((c + 1 : Nat) : Int) := by
      unfold wrapInt64; push_cast; omega
    have := ih f (c + 1) (some e) (evs ++ [.call, .sleep delay])
      (by push_cast; push_cast at hle; omega)
      (fun j hj => by
        have e : c + 1 + j = c + (j + 1) := by omega
        rw [e]
        exact hfail (j + 1) (by omega))
      (by
        have e : c + 1 + k = c + (k + 1) := by omega
        rw [e]
        exact hk) (by omega)
    simp only [common.retryLoop, hc, hlt, if_true, he, hw]
    rw [this]
    simp [retryTrace, show c + 1 + k + 1 = c + (k + 1) + 1 by omega]

theorem retryLoop_all_fail (operation : Nat → Option String)
    (maxRetries delay : Int) (hmax : maxRetries < 9223372036854775807) :
    ∀ (k fuel c : Nat) (err : Option String) (evs : List RetryEvent),
      (c : Int) + k = maxRetries → (∀ j, j ≤ k → operation (c + j) ≠ none) →
      k + 1 < fuel →
      common.retryLoop operation maxRetries delay fuel c c err evs
        = ⟨some (some ("重试 " ++ toString maxRetries ++ " 次后仍然失败: " ++
            errText (operation (c + k)))), c + k + 1, evs ++ retryTrace delay k⟩ := by
  intro k
  induction k with
  | zero =>
    intro fuel c err evs hle hfail hf
    obtain ⟨f, rfl⟩ : ∃ f, fuel = f + 2 := ⟨fuel - 2, by omega⟩
    have h0 := hfail 0 (by omega)
    simp only [Nat.add_zero] at h0
    obtain ⟨e, he⟩ := Option.ne_none_iff_exists'.mp h0
    have hc : (c : Int) ≤ maxRetries := by omega
    have hlt : ¬ (c : Int) < maxRetries := by omega
    have hw : wrapInt64 ((c : Int) + 1) = (c : Int) + 1 := by
      unfold wrapInt64; omega
    have hex : ¬ (c : Int) + 1 ≤ maxRetries := by omega
    simp [common.retryLoop, hc, hlt, he, hw, hex, retryTrace]
  | succ k ih =>
    intro fuel c err evs hle hfail hf
    obtain ⟨f, rfl⟩ : ∃ f, fuel = f + 1 := ⟨fuel - 1, by omega⟩
    have h0 := hfail 0 (by omega)
    simp only [Nat.add_zero] at h0
    obtain ⟨e, he⟩ := Option.ne_none_iff_exists'.mp h0
    have hc : (c : Int) ≤ maxRetries := by push_cast at hle; omega
    have hlt : (c : Int) < maxRetries := by push_cast at hle; omega
    have hw : wrapInt64 ((c : Int) + 1) = ((c + 1 : Nat) : Int) := by
      unfold wrapInt64; push_cast; omega
    have := ih f (c + 1) (some e) (evs ++ [.call, .sleep delay])
      (by push_cast; push_cast at hle; omega)
      (fun j hj => by
        have e : c + 1 + j = c + (j + 1) := by omega
        rw [e]
        exact hfail (j + 1) (by omega))
      (by omega)
    simp only [common.retryLoop, hc, hlt, if_true, he, hw]
    rw [this]
    simp [retryTrace, show c + 1 + k + 1 = c + (k + 1) + 1 by omega,
      show c + 1 + k = c + (k + 1) by omega]

theorem retryLoop_never_exits (delay : Int) :
    ∀ (fuel : Nat) (i : Int) (c : Nat) (err : Option String) (evs : List RetryEvent),
      -9223372036854775808 ≤ i → i ≤ 9223372036854775807 →
      (common.retryLoop (fun _ => some "failed") 9223372036854775807 delay fuel i c err
        evs).result = none ∧
      (common.retryLoop (fun _ => some "failed") 9223372036854775807 delay fuel i c err
        evs).calls = c + fuel := by
  intro fuel
  induction fuel with
  | zero => intro i c err evs _ _; simp [common.retryLoop]
  | succ f ih =>
    intro i c err evs hlo hhi
    have hw : -9223372036854775808 ≤ wrapInt64 (i + 1) ∧
        wrapInt64 (i + 1) ≤ 9223372036854775807 := by
      unfold wrapInt64; omega
    by_cases hlt : i < 9223372036854775807
    · have := ih (wrapInt64 (i + 1)) (c + 1) (some "failed")
        (evs ++ [.call, .sleep delay]) hw.1 hw.2
      simp only [common.retryLoop, hhi, hlt, if_true]
      exact ⟨this.1, by rw [this.2]; omega⟩
    · have := ih (wrapInt64 (i + 1)) (c + 1) (some "failed") (evs ++ [.call]) hw.1 hw.2
      simp only [common.retryLoop, hhi, hlt, if_true, if_false]
      exact ⟨this.1, by rw [this.2]; omega⟩

/-- Counterexample to C23: with `maxRetries` equal to the largest `int` the loop
condition `i <= maxRetries` holds for every `i`, so against an operation that
always fails `RetryOperation` never returns (it goes on invoking the operation
past `maxRetries + 1` invocations), where the claim has it return an error
after `maxRetries + 1` invocations. -/
theorem RetryOperation_max_int_never_returns :
    (¬ ∃ fuel, (common.RetryOperation (fun _ => some "failed") 9223372036854775807
        1000000000 fuel).result ≠ none) ∧
    (¬ ∃ fuel, (common.RetryOperation (fun _ => some "failed") 9223372036854775807
        1000000000 fuel).calls ≠ fuel) := by
  constructor
  · rintro ⟨fuel, h⟩
    exact h (retryLoop_never_exits 1000000000 fuel 0 0 none [] (by decide) (by decide)).1
  · rintro ⟨fuel, h⟩
    apply h
    have := (retryLoop_never_exits 1000000000 fuel 0 0 none [] (by decide) (by decide)).2
    simpa [common.RetryOperation] using this

/-- Claim C23 (as amended): for every `maxRetries` below the largest `int`,
`RetryOperation(operation, maxRetries, delay)` invokes `operation` at most
`maxRetries + 1` times and stops at the first success. For `maxRetries ≥ 0`:
if invocation `k` (from 0, `k ≤ maxRetries`) is the first to succeed, it returns
`nil` after `k + 1` invocations; if the first `maxRetries + 1` invocations all
fail, it returns an error after exactly `maxRetries + 1` invocations; so it
returns `nil` if and only if one of the first `maxRetries + 1` invocations
succeeds; in both cases it sleeps `delay` exactly once between consecutive
invocations and never after the last. For `maxRetries < 0` it invokes
`operation` zero times and returns an error. The copy in `utils` behaves as the
one in `common`. -/
theorem RetryOperation_spec (operation : Nat → Option String) (maxRetries delay : Int)
    (hmax : maxRetries < 9223372036854775807) :
    (0 ≤ maxRetries →
      (∀ k fuel : Nat, k ≤ maxRetries.toNat → (∀ j, j < k → operation j ≠ none) →
        operation k = none → k < fuel →
        common.RetryOperation operation maxRetries delay fuel
          = ⟨some none, k + 1, retryTrace delay k⟩) ∧
      (∀ fuel : Nat, (∀ j, j ≤ maxRetries.toNat → operation j ≠ none) →
        maxRetries.toNat + 1 < fuel →
        common.RetryOperation operation maxRetries delay fuel
          = ⟨some (some ("重试 " ++ toString maxRetries ++ " 次后仍然失败: " ++
              errText (operation maxRetries.toNat))),
            maxRetries.toNat + 1, retryTrace delay maxRetries.toNat⟩) ∧
      (∀ fuel : Nat, maxRetries.toNat + 1 < fuel →
        ((common.RetryOperation operation maxRetries delay fuel).result = some none ↔
          ∃ k, k ≤ maxRetries.toNat ∧ operation k = none))) ∧
    (maxRetries < 0 → ∀ fuel : Nat, 0 < fuel →
      common.RetryOperation operation maxRetries delay fuel
        = ⟨some (some ("重试 " ++ toString maxRetries ++ " 次后仍然失败: " ++ errText none)),
            0, []⟩) ∧
    (∀ fuel : Nat, utils.RetryOperation operation maxRetries delay fuel
      = common.RetryOperation operation maxRetries delay fuel) := by
  have hsucc : 0 ≤ maxRetries → ∀ k fuel : Nat, k ≤ maxRetries.toNat →
      (∀ j, j < k → operation j ≠ none) → operation k = none → k < fuel →
      common.RetryOperation operation maxRetries delay fuel
        = ⟨some none, k + 1, retryTrace delay k⟩ := by
    intro h0 k fuel hk hfail hok hf
    have := retryLoop_first_success operation maxRetries delay hmax k fuel 0 none []
      (by push_cast; omega) (fun j hj => by rw [Nat.zero_add]; exact hfail j hj)
      (by rw [Nat.zero_add]; exact hok) hf
    simpa [common.RetryOperation] using this
  have hfailAll : 0 ≤ maxRetries → ∀ fuel : Nat,
      (∀ j, j ≤ maxRetries.toNat → operation j ≠ none) → maxRetries.toNat + 1 < fuel →
      common.RetryOperation operation maxRetries delay fuel
        = ⟨some (some ("重试 " ++ toString maxRetries ++ " 次后仍然失败: " ++
            errText (operation maxRetries.toNat))),
          maxRetries.toNat + 1, retryTrace delay maxRetries.toNat⟩ := by
    intro h0 fuel hfail hf
    have := retryLoop_all_fail operation maxRetries delay hmax maxRetries.toNat fuel 0 none []
      (by push_cast; omega) (fun j hj => by rw [Nat.zero_add]; exact hfail j hj) hf
    simpa [common.RetryOperation] using this
  refine ⟨fun h0 => ⟨hsucc h0, hfailAll h0, ?_⟩, ?_, ?_⟩
  · intro fuel hf
    constructor
    · intro hres
      by_contra hno
      have hall : ∀ j, j ≤ maxRetries.toNat → operation j ≠ none :=
        fun j hj hj0 => hno ⟨j, hj, hj0⟩
      rw [hfailAll h0 fuel hall hf] at hres
      simp at hres
    · rintro ⟨k, hk, hok⟩
      have hex : ∃ k, operation k = none := ⟨k, hok⟩
      have hle : Nat.find hex ≤ k := Nat.find_min' hex hok
      rw [hsucc h0 (Nat.find hex) fuel (by omega)
        (fun j hj => Nat.find_min hex hj) (Nat.find_spec hex) (by omega)]
  · intro hneg fuel hf
    obtain ⟨f, rfl⟩ : ∃ f, fuel = f + 1 := ⟨fuel - 1, by omega⟩
    have hc : ¬ (0 : Int) ≤ maxRetries := by omega
    simp [common.RetryOperation, common.retryLoop, hc]
  · intro fuel
    exact utils_retryLoop_eq operation maxRetries delay fuel 0 0 none []

/-- Witness of C23 (as amended): three retries, the third invocation succeeds. -/
theorem RetryOperation_spec_witness :
    common.RetryOperation (fun n => if n < 2 then some "timeout" else none) 3 1000000000 10
      = ⟨some none, 2 + 1, retryTrace 1000000000 2⟩ :=
  ((RetryOperation_spec (fun n => if n < 2 then some "timeout" else none) 3 1000000000
    (by decide)).1 (by decide)).1 2 10 (by decide) (by decide) (by decide) (by decide)

theorem RetryOperation_examples :
    common.RetryOperation (fun n => if n < 2 then some "e" else none) 3 1000000000 10
      = ⟨some none, 3, [.call, .sleep 1000000000, .call, .sleep 1000000000, .call]⟩ ∧
    common.RetryOperation (fun _ => some "e") 1 1000000000 10
      = ⟨some (some "重试 1 次后仍然失败: e"), 2, [.call, .sleep 1000000000, .call]⟩ ∧
    common.RetryOperation (fun _ => some "e") (-1) 1000000000 10
      = ⟨some (some "重试 -1 次后仍然失败: <nil>"), 0, []⟩ := by
  decide

/-! ## `generateSign` -/

theorem EncodeToString_eq (src : List Byte) : hex.EncodeToString src = some (hexLower src) :=
  Encode_exact _ src (by simp)

theorem mapIndex_of_mem : ∀ (params : List (List Byte × List Byte)) (k v : List Byte),
    (params.map Prod.fst).Nodup → (k, v) ∈ params → mapIndex params k = v := by
  intro params
  induction params with
  | nil => intro k v _ h; simp at h
  | cons p rest ih =>
    intro k v hnd hmem
    obtain ⟨k1, v1⟩ := p
    simp only [List.map_cons, List.nodup_cons] at hnd
    rcases List.mem_cons.mp hmem with h | h
    · have hk : k = k1 := congrArg Prod.fst h
      have hv : v = v1 := congrArg Prod.snd h
      simp [mapIndex, hk, hv]
    · have hne : k1 ≠ k := by
        intro he
        apply hnd.1
        rw [he]
        exact List.mem_map.mpr ⟨(k, v), h, rfl⟩
      simp only [mapIndex, hne, if_false]
      exact ih k v hnd.2 h

theorem signLoop_pairs (params : List (List Byte × List Byte)) :
    ∀ (ps : List (List Byte × List Byte)) (signStr : List Byte),
      (∀ p ∈ ps, mapIndex params p.1 = p.2) →
      signLoop params (ps.map Prod.fst) signStr = signStr ++ concatPairs ps := by
  intro ps
  induction ps with
  | nil => intro signStr _; simp [signLoop, concatPairs]
  | cons p rest ih =>
    intro signStr h
    obtain ⟨k, v⟩ := p
    have hk : mapIndex params k = v := h (k, v) (List.mem_cons_self _ _)
    simp only [List.map_cons, signLoop, hk]
    rw [ih _ (fun q hq => h q (List.mem_cons_of_mem _ hq))]
    simp [concatPairs]

theorem signLoop_congr (params other : List (List Byte × List Byte)) :
    ∀ (ks : List (List Byte)) (signStr : List Byte),
      (∀ k ∈ ks, mapIndex other k = mapIndex params k) →
      signLoop other ks signStr = signLoop params ks signStr := by
  intro ks
  induction ks with
  | nil => intro signStr _; rfl
  | cons k rest ih =>
    intro signStr h
    simp only [signLoop, h k (List.mem_cons_self _ _)]
    exact ih _ (fun q hq => h q (List.mem_cons_of_mem _ hq))

theorem canonicalPairs_keys (params : List (List Byte × List Byte)) :
    (canonicalPairs params).map Prod.fst = sortStrings (params.map Prod.fst) := by
  unfold canonicalPairs sortStrings
  exact List.map_insertionSort (fun p q => p.1 ≤ q.1) (fun a b => a ≤ b) Prod.fst params
    (fun _ _ _ _ => Iff.rfl)

theorem sortStrings_perm (a b : List (List Byte)) (h : a.Perm b) :
    sortStrings a = sortStrings b := by
  unfold sortStrings
  exact List.eq_of_perm_of_sorted
    (((List.perm_insertionSort _ a).trans h).trans (List.perm_insertionSort _ b).symm)
    (List.sorted_insertionSort _ a) (List.sorted_insertionSort _ b)

theorem generateSign_canonical (params : List (List Byte × List Byte)) (secretKey : List Byte)
    (hnodup : (params.map Prod.fst).Nodup) :
    generateSign params secretKey
      = some (hexLower (md5.Sum (concatPairs (canonicalPairs params) ++ secretKey))) := by
  have hmem : ∀ p ∈ canonicalPairs params, mapIndex params p.1 = p.2 := by
    intro p hp
    have : p ∈ params := (List.perm_insertionSort _ params).mem_iff.mp hp
    exact mapIndex_of_mem params p.1 p.2 hnodup this
  unfold generateSign
  simp only []
  rw [← canonicalPairs_keys, signLoop_pairs params _ [] hmem, EncodeToString_eq]
  simp

/-- Claim C24: `generateSign(params, secretKey)` depends only on the set of
key/value pairs and the secret, not on the iteration order of the map. For
every map `params` (entries with distinct keys, in any iteration order) and
every `secretKey` it equals the 32-character lowercase hexadecimal MD5 of the
string formed by concatenating key, `=`, value for the keys in ascending byte
order, with no separator between the pairs, followed by `secretKey`; every
other iteration order of the same entries gives the same result. -/
theorem generateSign_spec (params : List (List Byte × List Byte)) (secretKey : List Byte)
    (hnodup : (params.map Prod.fst).Nodup) :
    generateSign params secretKey
      = some (hexLower (md5.Sum (concatPairs (canonicalPairs params) ++ secretKey))) ∧
    (canonicalPairs params).Perm params ∧
    List.Sorted (fun a b => a < b) ((canonicalPairs params).map Prod.fst) ∧
    (hexLower (md5.Sum (concatPairs (canonicalPairs params) ++ secretKey))).length = 32 ∧
    (∀ b ∈ hexLower (md5.Sum (concatPairs (canonicalPairs params) ++ secretKey)),
      isLowerHexDigit b = true) ∧
    (∀ other : List (List Byte × List Byte), other.Perm params →
      generateSign other secretKey = generateSign params secretKey) := by
  refine ⟨generateSign_canonical params secretKey hnodup, List.perm_insertionSort _ params,
    ?_, ?_, hexLower_all _, ?_⟩
  · rw [canonicalPairs_keys]
    have hs : List.Sorted (fun a b => a ≤ b) (sortStrings (params.map Prod.fst)) :=
      List.sorted_insertionSort _ _
    have hn : (sortStrings (params.map Prod.fst)).Nodup :=
      (List.perm_insertionSort _ _).nodup_iff.mpr hnodup
    exact hs.lt_of_le hn
  · rw [hexLower_length, md5_Sum_length]
  · intro other hperm
    have hkeys : (other.map Prod.fst).Perm (params.map Prod.fst) := hperm.map _
    have hnd : (other.map Prod.fst).Nodup := hkeys.nodup_iff.mpr hnodup
    have hidx : ∀ k ∈ sortStrings (params.map Prod.fst),
        mapIndex other k = mapIndex params k := by
      intro k hk
      have hk1 : k ∈ params.map Prod.fst := (List.perm_insertionSort _ _).mem_iff.mp hk
      obtain ⟨p, hp, hpk⟩ := List.mem_map.mp hk1
      obtain ⟨k1, v⟩ := p
      simp only at hpk
      subst hpk
      rw [mapIndex_of_mem params k1 v hnodup hp,
        mapIndex_of_mem other k1 v hnd (hperm.mem_iff.mpr hp)]
    unfold generateSign
    simp only []
    rw [sortStrings_perm _ _ hkeys, signLoop_congr params other _ [] hidx]

set_option maxRecDepth 100000 in
/-- Witness of C24: the four parameters of the polling request, in an order that
is not the sorted one. -/
theorem generateSign_spec_witness :
    generateSign [(asciiBytes "grant_type", asciiBytes "device_token"),
        (asciiBytes "code", asciiBytes "dc"), (asciiBytes "client_id", asciiBytes "app")]
        (asciiBytes "secret")
      = some (hexLower (md5.Sum (concatPairs (canonicalPairs
          [(asciiBytes "grant_type", asciiBytes "device_token"),
           (asciiBytes "code", asciiBytes "dc"), (asciiBytes "client_id", asciiBytes "app")])
          ++ asciiBytes "secret"))) :=
  (generateSign_spec [(asciiBytes "grant_type", asciiBytes "device_token"),
    (asciiBytes "code", asciiBytes "dc"), (asciiBytes "client_id", asciiBytes "app")]
    (asciiBytes "secret") (by decide)).1

set_option maxRecDepth 100000 in
theorem generateSign_fixture :
    canonicalPairs [(asciiBytes "b", asciiBytes "2"), (asciiBytes "a", asciiBytes "1")]
      = [(asciiBytes "a", asciiBytes "1"), (asciiBytes "b", asciiBytes "2")] ∧
    generateSign [(asciiBytes "b", asciiBytes "2"), (asciiBytes "a", asciiBytes "1")]
        (asciiBytes "secret")
      = some (hexLower (md5.Sum (asciiBytes "a=1b=2secret"))) ∧
    generateSign [(asciiBytes "a", asciiBytes "1"), (asciiBytes "b", asciiBytes "2")]
        (asciiBytes "secret")
      = some (asciiBytes "d37cfe88ec8ff020e497f5197bf3ba1c") := by
  decide

end BaiduPCS
